import Mathlib

/-!
Verification model of `containers/mapstructure/mapstructure.go`:
a weakly-typed map/JSON/YAML → struct decoder.

Go's reflection universe is embedded shallowly: `Ty` models the
destination types reachable by the decoder, `V` models dynamically
typed Go values (`interface{}` contents).
-/

namespace Mapstructure

/-- Signed integer widths (`int`, `int8` … `int64`); the platform `int`
is modeled as 64-bit, matching `reflect.Type.Bits()` on a 64-bit host. -/
inductive IntW where
  | i | i8 | i16 | i32 | i64
deriving DecidableEq, Repr

def IntW.bits : IntW → Nat
  | .i => 64 | .i8 => 8 | .i16 => 16 | .i32 => 32 | .i64 => 64

/-- Unsigned integer widths (`uint`, `uint8` … `uint64`). -/
inductive UintW where
  | u | u8 | u16 | u32 | u64
deriving DecidableEq, Repr

def UintW.bits : UintW → Nat
  | .u => 64 | .u8 => 8 | .u16 => 16 | .u32 => 32 | .u64 => 64

/-- Destination (and dynamic) Go types reachable by the decoder.
A struct field is `(name, tag, exported, type)`; the tag string is the
value of the struct tag under the decoder's tag namespace
(tags are modeled in a single namespace). `time.Time` destinations
are outside the modeled type universe. -/
inductive Ty where
  | tInt (w : IntW)
  | tUint (w : UintW)
  | tFloat32
  | tFloat64
  | tBool
  | tString
  | tAny                                        -- interface{}
  | tSlice (e : Ty)
  | tMap (k v : Ty)
  | tPtr (e : Ty)
  | tStruct (fields : List (String × String × Bool × Ty))

/-- A struct field descriptor: `(name, tag, exported, type)`. -/
abbrev Fi := String × String × Bool × Ty

def Fi.name (f : Fi) : String := f.1
def Fi.tag (f : Fi) : String := f.2.1
def Fi.exported (f : Fi) : Bool := f.2.2.1
def Fi.ty (f : Fi) : Ty := f.2.2.2

/-- Dynamically typed Go values (`interface{}` contents).
`vDoc` is the canonical representation of a `map[string]interface{}`
(the generic document type); `vMap` represents other typed maps.
Float payloads are carried as exact rationals (binary float rounding is
not modeled; no verified claim depends on it). -/
inductive V where
  | vNull
  | vBool (b : Bool)
  | vInt (w : IntW) (n : Int)
  | vUint (w : UintW) (n : Nat)
  | vFloat32 (q : Rat)
  | vFloat64 (q : Rat)
  | vString (s : String)
  | vSlice (e : Ty) (xs : List V)
  | vMap (k v : Ty) (entries : List (V × V))
  | vDoc (entries : List (String × V))
  | vPtr (e : Ty) (p : Option V)
  | vStruct (fields : List Fi) (vals : List V)

mutual

/-- Structural (= Go type identity) equality test on `Ty`, used for the
`reflect.Type.AssignableTo` check on identical types. -/
def Ty.beq : Ty → Ty → Bool
  | .tInt a, .tInt b => a == b
  | .tUint a, .tUint b => a == b
  | .tFloat32, .tFloat32 => true
  | .tFloat64, .tFloat64 => true
  | .tBool, .tBool => true
  | .tString, .tString => true
  | .tAny, .tAny => true
  | .tSlice a, .tSlice b => Ty.beq a b
  | .tMap ka va, .tMap kb vb => Ty.beq ka kb && Ty.beq va vb
  | .tPtr a, .tPtr b => Ty.beq a b
  | .tStruct fs, .tStruct gs => Ty.beqFields fs gs
  | _, _ => false

/-- Field-list equality helper for `Ty.beq`. -/
def Ty.beqFields : List Fi → List Fi → Bool
  | [], [] => true
  | f :: fs, g :: gs =>
      f.1 == g.1 && f.2.1 == g.2.1 && f.2.2.1 == g.2.2.1 &&
        Ty.beq f.2.2.2 g.2.2.2 && Ty.beqFields fs gs
  | _, _ => false

end

mutual

theorem Ty.beq_refl : (a : Ty) → Ty.beq a a = true
  | .tInt a => by simp [Ty.beq]
  | .tUint a => by simp [Ty.beq]
  | .tFloat32 => rfl
  | .tFloat64 => rfl
  | .tBool => rfl
  | .tString => rfl
  | .tAny => rfl
  | .tSlice a => by rw [Ty.beq]; exact Ty.beq_refl a
  | .tMap k v => by rw [Ty.beq]; rw [Ty.beq_refl k, Ty.beq_refl v]; rfl
  | .tPtr a => by rw [Ty.beq]; exact Ty.beq_refl a
  | .tStruct fs => by rw [Ty.beq]; exact Ty.beqFields_refl fs

theorem Ty.beqFields_refl : (fs : List Fi) → Ty.beqFields fs fs = true
  | [] => rfl
  | f :: fs => by
      rw [Ty.beqFields]
      rw [Ty.beq_refl f.2.2.2, Ty.beqFields_refl fs]
      simp

end

/-- The dynamic type of a value (`reflect.ValueOf(x).Type()`).
`vNull` is the nil interface, which has no dynamic type; it is mapped to
`tAny` but every use site checks for `vNull` first, as the source does. -/
def tyOf : V → Ty
  | .vNull => .tAny
  | .vBool _ => .tBool
  | .vInt w _ => .tInt w
  | .vUint w _ => .tUint w
  | .vFloat32 _ => .tFloat32
  | .vFloat64 _ => .tFloat64
  | .vString _ => .tString
  | .vSlice e _ => .tSlice e
  | .vMap k v _ => .tMap k v
  | .vDoc _ => .tMap .tString .tAny
  | .vPtr e _ => .tPtr e
  | .vStruct fs _ => .tStruct fs

mutual

/-- The zero value of a type (`reflect.Zero(t)`).  Nil slices/maps are
collapsed with empty ones (the model does not distinguish them). -/
def zeroOf : Ty → V
  | .tInt w => .vInt w 0
  | .tUint w => .vUint w 0
  | .tFloat32 => .vFloat32 0
  | .tFloat64 => .vFloat64 0
  | .tBool => .vBool false
  | .tString => .vString ""
  | .tAny => .vNull
  | .tSlice e => .vSlice e []
  | .tMap k v => .vMap k v []
  | .tPtr e => .vPtr e none
  | .tStruct fs => .vStruct fs (zeroFieldVals fs)

/-- Zero values of a field list, for `zeroOf` on structs. -/
def zeroFieldVals : List Fi → List V
  | [] => []
  | f :: fs => zeroOf f.2.2.2 :: zeroFieldVals fs

end

mutual

/-- `reflect.Value.IsZero`: whether a value is the zero value of its
dynamic type. -/
def isZeroV : V → Bool
  | .vNull => true
  | .vBool b => !b
  | .vInt _ n => n == 0
  | .vUint _ n => n == 0
  | .vFloat32 q => q == 0
  | .vFloat64 q => q == 0
  | .vString s => s == ""
  | .vSlice _ xs => xs.isEmpty
  | .vMap _ _ es => es.isEmpty
  | .vDoc es => es.isEmpty
  | .vPtr _ p => p.isNone
  | .vStruct _ vals => allZeroV vals

/-- All-fields-zero helper for `isZeroV` on structs. -/
def allZeroV : List V → Bool
  | [] => true
  | v :: vs => isZeroV v && allZeroV vs

end

/-! ## Models of the Go standard-library functions the decoder calls

`strings.ToLower`, `strings.Split`, `strings.TrimSpace` and
`strings.Contains` are modeled directly over character lists.  Case
mapping is modeled on ASCII (the Unicode tables of `strings.ToLower`
are out of scope; every tag, key and literal in the verified claims is
ASCII). -/

/-- ASCII lower-casing of one character. -/
def charLower (c : Char) : Char :=
  if 'A' ≤ c ∧ c ≤ 'Z' then Char.ofNat (c.toNat + 32) else c

/-- `strings.ToLower` (ASCII fragment). -/
def goToLower (s : String) : String := String.mk (s.data.map charLower)

/-- Split a character list on a separator character; never returns `[]`
(an empty input yields `[[]]`, like `strings.Split("", ",") = [""]`). -/
def splitList (sep : Char) : List Char → List (List Char)
  | [] => [[]]
  | c :: cs =>
      let r := splitList sep cs
      if c = sep then [] :: r
      else
        match r with
        | [] => [[c]]
        | h :: t => (c :: h) :: t

/-- `strings.Split(s, ",")`. -/
def goSplitComma (s : String) : List String :=
  (splitList ',' s.data).map String.mk

/-- `unicode.IsSpace` on the Latin-1 range. -/
def goIsSpace (c : Char) : Bool :=
  c.toNat ∈ [0x20, 0x9, 0xa, 0xb, 0xc, 0xd, 0x85, 0xa0]

/-- `strings.TrimSpace`. -/
def goTrimSpace (s : String) : String :=
  String.mk ((s.data.dropWhile goIsSpace).reverse.dropWhile goIsSpace).reverse

/-- Whether `needle` occurs at the head of `hay`. -/
def leadsWith : List Char → List Char → Bool
  | [], _ => true
  | _ :: _, [] => false
  | n :: ns, h :: hs => n == h && leadsWith ns hs

/-- Substring occurrence test on character lists. -/
def containsSub (hay needle : List Char) : Bool :=
  if leadsWith needle hay then true
  else
    match hay with
    | [] => false
    | _ :: hs => containsSub hs needle

/-- `strings.Contains`. -/
def goContains (s sub : String) : Bool := containsSub s.data sub.data

/-- The base-10 value of a digit string. -/
def digitsNat (cs : List Char) : Nat :=
  cs.foldl (fun a c => 10 * a + (c.toNat - 48)) 0

/-- Base-10 digit-string value: `some n` iff the characters are one or
more ASCII digits. -/
def digitsVal (cs : List Char) : Option Nat :=
  if cs.isEmpty then none
  else if cs.all Char.isDigit then some (digitsNat cs)
  else none

/-- `strconv.ParseInt(s, 10, bits)`: optional leading `+`/`-`, one or
more base-10 digits, value in `[-2^(bits-1), 2^(bits-1))`; `none` models
a returned error (syntax or range). -/
def goParseInt (s : String) (bits : Nat) : Option Int :=
  let p : Bool × List Char :=
    match s.data with
    | '-' :: rest => (true, rest)
    | '+' :: rest => (false, rest)
    | cs => (false, cs)
  match digitsVal p.2 with
  | none => none
  | some n =>
      let v : Int := if p.1 then -(n : Int) else (n : Int)
      if -(2 ^ (bits - 1) : Int) ≤ v ∧ v < 2 ^ (bits - 1) then some v else none

/-- `strconv.ParseUint(s, 10, bits)`: no sign permitted, one or more
base-10 digits, value below `2^bits`. -/
def goParseUint (s : String) (bits : Nat) : Option Nat :=
  match digitsVal s.data with
  | none => none
  | some n => if n < 2 ^ bits then some n else none

/-- `strconv.ParseBool`: accepts exactly the twelve Go boolean literals. -/
def goParseBool (s : String) : Option Bool :=
  if s ∈ ["1", "t", "T", "TRUE", "true", "True"] then some true
  else if s ∈ ["0", "f", "F", "FALSE", "false", "False"] then some false
  else none

/-- Split a character list at the first `e`/`E` (exponent marker). -/
def splitExp (cs : List Char) : List Char × Option (List Char) :=
  match cs with
  | [] => ([], none)
  | c :: rest =>
      if c = 'e' ∨ c = 'E' then ([], some rest)
      else
        let r := splitExp rest
        (c :: r.1, r.2)

/-- `strconv.ParseFloat(s, bits)` on finite decimal literals, with the
value carried exactly as a rational (rounding to binary floating point is
not modeled, nor are `inf`/`nan`/hex-float/underscore spellings; no
verified claim depends on those). -/
def goParseFloat (s : String) : Option Rat :=
  let p : Bool × List Char :=
    match s.data with
    | '-' :: rest => (true, rest)
    | '+' :: rest => (false, rest)
    | cs => (false, cs)
  let mexp := splitExp p.2
  let mant := mexp.1
  let intPart := mant.takeWhile (· ≠ '.')
  let rest := mant.dropWhile (· ≠ '.')
  let fracPart := rest.drop 1
  if rest ≠ [] ∧ rest.take 1 ≠ ['.'] then none
  else if ¬ (intPart.all Char.isDigit ∧ fracPart.all Char.isDigit) then none
  else if intPart.isEmpty ∧ fracPart.isEmpty then none
  else
    let m : Rat :=
      ((intPart ++ fracPart).foldl (fun a c => 10 * a + (c.toNat - 48)) 0 : Nat)
    let base : Rat := m / ((10 ^ fracPart.length : Nat) : Rat)
    let withExp : Option Rat :=
      match mexp.2 with
      | none => some base
      | some ecs =>
          let ep : Bool × List Char :=
            match ecs with
            | '-' :: r => (true, r)
            | '+' :: r => (false, r)
            | cs => (false, cs)
          match digitsVal ep.2 with
          | none => none
          | some e =>
              if ep.1 then some (base / ((10 ^ e : Nat) : Rat))
              else some (base * ((10 ^ e : Nat) : Rat))
    withExp.map (fun q => if p.1 then -q else q)

/-- Truncation toward zero, as in Go's `int64(f)` conversion. -/
def ratTrunc (q : Rat) : Int := q.num / (q.den : Int)

/-- Reduce an integer into signed `bits`-width two's-complement range,
as `reflect.Value.SetInt` and Go integer conversions do. -/
def wrapInt (bits : Nat) (n : Int) : Int :=
  let m := n % (2 ^ bits : Int)
  if 2 ^ (bits - 1) ≤ m then m - 2 ^ bits else m

/-- Reduce an integer into unsigned `bits`-width range. -/
def wrapUint (bits : Nat) (n : Int) : Nat := (n % (2 ^ bits : Int)).toNat

/-- Stand-in for `strconv.FormatFloat(f, 'f', -1, 64)`; the decoder only
passes the rendered text through, and no verified claim depends on the
exact rendering of a float. -/
def goFormatFloat (q : Rat) : String := toString q

/-- Go conversion `string(n)` on an integer: the one-rune string for a
valid code point, `"�"` otherwise. -/
def intToRuneString (n : Int) : String :=
  if 0 ≤ n ∧ n < 0xd800 ∨ 0xe000 ≤ n ∧ n < 0x110000 then
    String.singleton (Char.ofNat n.toNat)
  else "�"

/-! ## Errors -/

/-- Decoder errors.  Constructors mirror the `fmt.Errorf` sites of the
source; `fieldErr`/`mapKeyErr`/`mapValErr` model `%w`-wrapping.
`outOfFuel` is a recursion-budget artifact of the embedding: every
theorem either holds for all budgets or supplies a sufficient one. -/
inductive Err where
  | invalidDest                              -- "output must be a non-nil pointer"
  | notStructOutput                          -- "output must be a struct for map decoding, got %s"
  | unknownField (k : String)                -- "unknown field: %s"
  | cannotConvert (src : V) (sty tty : Ty)   -- "cannot convert %v (type %s) to %s"
  | fieldErr (field : String) (e : Err)      -- "error setting field %s: %w"
  | mapKeyErr (e : Err)                      -- "error converting map key: %w"
  | mapValErr (e : Err)                      -- "error converting map value: %w"
  | parseJSONFailed                          -- "failed to parse JSON: %w"
  | parseYAMLFailed                          -- "failed to parse YAML: %w"
  | emptyInput                               -- "empty input data"
  | notAStruct                               -- "input must be a struct, got %s"
  | outOfFuel

/-! ## Decoder configuration and field resolution -/

/-- The `MapDecoder` configuration struct. -/
structure MapDecoder where
  weaklyTyped : Bool
  tagName : String
  ignoreUnknownKeys : Bool
  zeroFields : Bool

/-- `NewDecoder()`: weak typing, `json` tags, ignore unknown keys,
zero fields first. -/
def NewDecoder : MapDecoder :=
  { weaklyTyped := true, tagName := "json", ignoreUnknownKeys := true,
    zeroFields := true }

/-- Go map assignment `m[k] = v` on an association list: replace the
existing binding or append a fresh one. -/
def upsert {α : Type} : List (String × α) → String → α → List (String × α)
  | [], k, v => [(k, v)]
  | (k0, v0) :: rest, k, v =>
      if k0 = k then (k, v) :: rest else (k0, v0) :: upsert rest k v

/-- Association-list lookup (Go map read). -/
def lookupA {α : Type} : List (String × α) → String → Option α
  | [], _ => none
  | (k0, v0) :: rest, k => if k0 = k then some v0 else lookupA rest k

/-- First comma-separated segment of a tag value (`parts[0]`). -/
def primOf (tag : String) : String := (goSplitComma tag).headD ""

/-- The name→field-index map built by `decodeMap` (lines 286–303): for
each exported field, the tag's first segment when it is neither empty nor
`"-"`, and — unconditionally — the lowercase field name. -/
def buildFM : List Fi → Nat → List (String × Nat) → List (String × Nat)
  | [], _, acc => acc
  | f :: fs, i, acc =>
      if f.2.2.1 = false then buildFM fs (i + 1) acc
      else
        let acc1 :=
          if f.2.1 ≠ "" then
            (if primOf f.2.1 ≠ "" ∧ primOf f.2.1 ≠ "-" then upsert acc (primOf f.2.1) i
             else acc)
          else acc
        buildFM fs (i + 1) (upsert acc1 (goToLower f.1) i)

def buildFieldMap (fields : List Fi) : List (String × Nat) :=
  buildFM fields 0 []

/-- Key resolution in the decode loop (lines 315–319): exact match in the
field map, else case-insensitive (lowercased key) match. -/
def resolveKey (fm : List (String × Nat)) (k : String) : Option Nat :=
  match lookupA fm k with
  | some i => some i
  | none => lookupA fm (goToLower k)

/-! ## Type Coercion Engine -/

/-- The weak-conversion block of `setValue` (lines 361–453), active only
with `WeaklyTyped`.  It never recurses and never mutates on failure: a
`none` result falls through to the later steps.  The `string → time.Time`
sub-case is outside the modeled type universe. -/
def weakConvert (tty : Ty) (src : V) : Option V :=
  match src with
  | .vString str =>
      (match tty with
       | .tInt w => (goParseInt str w.bits).map (fun n => .vInt w n)
       | .tUint w => (goParseUint str w.bits).map (fun n => .vUint w n)
       | .tFloat32 => (goParseFloat str).map .vFloat32
       | .tFloat64 => (goParseFloat str).map .vFloat64
       | .tBool =>
           if goToLower str ∈ ["true", "1", "t", "yes", "y", "on"] then
             some (.vBool true)
           else if goToLower str ∈ ["false", "0", "f", "no", "n", "off"] then
             some (.vBool false)
           else (goParseBool str).map .vBool
       | .tSlice .tString =>
           some (.vSlice .tString
             ((goSplitComma str).map (fun part => .vString (goTrimSpace part))))
       | _ => none)
  | .vFloat64 q =>
      (match tty with
       | .tInt w => some (.vInt w (wrapInt w.bits (ratTrunc q)))
       | .tUint w => some (.vUint w (wrapUint w.bits (ratTrunc q)))
       | .tFloat32 => some (.vFloat32 q)
       | .tString => some (.vString (goFormatFloat q))
       | _ => none)
  | _ => none

/-- The last-resort `ConvertibleTo` step (lines 519–523): Go value
conversions between numeric types (with two's-complement wrapping and
truncation toward zero) and integer→string rune conversion.
String↔byte-slice conversions are outside the modeled conversions
(the model cannot represent non-UTF-8 Go strings). -/
def goConvert (src : V) (tty : Ty) : Option V :=
  match src, tty with
  | .vInt _ n, .tInt w => some (.vInt w (wrapInt w.bits n))
  | .vInt _ n, .tUint w => some (.vUint w (wrapUint w.bits n))
  | .vInt _ n, .tFloat32 => some (.vFloat32 (n : Rat))
  | .vInt _ n, .tFloat64 => some (.vFloat64 (n : Rat))
  | .vInt _ n, .tString => some (.vString (intToRuneString n))
  | .vUint _ n, .tInt w => some (.vInt w (wrapInt w.bits (n : Int)))
  | .vUint _ n, .tUint w => some (.vUint w (wrapUint w.bits (n : Int)))
  | .vUint _ n, .tFloat32 => some (.vFloat32 (n : Rat))
  | .vUint _ n, .tFloat64 => some (.vFloat64 (n : Rat))
  | .vUint _ n, .tString => some (.vString (intToRuneString (n : Int)))
  | .vFloat32 q, .tInt w => some (.vInt w (wrapInt w.bits (ratTrunc q)))
  | .vFloat32 q, .tUint w => some (.vUint w (wrapUint w.bits (ratTrunc q)))
  | .vFloat32 q, .tFloat64 => some (.vFloat64 q)
  | .vFloat64 q, .tInt w => some (.vInt w (wrapInt w.bits (ratTrunc q)))
  | .vFloat64 q, .tUint w => some (.vUint w (wrapUint w.bits (ratTrunc q)))
  | .vFloat64 q, .tFloat32 => some (.vFloat32 q)
  | _, _ => none

/-- The element loop of the slice branch (lines 457–466), abstracted
over the element converter: each element is converted into a freshly
zeroed slot; the first failure aborts with the element's error
unwrapped. -/
def sliceLoop (conv : V → V × Option Err) : List V → Except Err (List V)
  | [] => .ok []
  | x :: xs =>
      match conv x with
      | (_, some err) => .error err
      | (v, none) =>
          match sliceLoop conv xs with
          | .error err => .error err
          | .ok vs => .ok (v :: vs)

/-- The entry loop of the map branch (lines 469–492), abstracted over
the key and value converters: keys and values are converted into freshly
zeroed slots, failures wrapped as key or value conversion errors.
Converted entries are collected in order (collisions between distinct
converted keys are not collapsed). -/
def mapLoop (convK convV : V → V × Option Err) :
    List (V × V) → Except Err (List (V × V))
  | [] => .ok []
  | (k, v) :: rest =>
      match convK k with
      | (_, some err) => .error (.mapKeyErr err)
      | (k2, none) =>
          match convV v with
          | (_, some err) => .error (.mapValErr err)
          | (v2, none) =>
              match mapLoop convK convV rest with
              | .error err => .error err
              | .ok es => .ok ((k2, v2) :: es)

/-- The per-key loop of `decodeMap` (lines 314–334), abstracted over the
field converter `sv fieldTy curFieldVal docVal`, carrying the current
field values and the unknown-key accumulator.  A conversion failure
stops the loop with the wrapped, field-identified error, keeping the
failed field's (possibly partially mutated) state.  The `CanSet` guard
of line 327 never skips here because the field map only contains
exported fields. -/
def entriesLoop (sv : Ty → V → V → V × Option Err) (fields : List Fi)
    (fm : List (String × Nat)) :
    List (String × V) → List V → List String →
      List V × List String × Option Err
  | [], vals, unk => (vals, unk, none)
  | (key, value) :: rest, vals, unk =>
      match resolveKey fm key with
      | none => entriesLoop sv fields fm rest vals (unk ++ [key])
      | some i =>
          let f := fields.getD i ("", "", false, .tBool)
          match sv f.2.2.2 (vals.getD i .vNull) value with
          | (v2, some err) => (vals.set i v2, unk, some (.fieldErr f.1 err))
          | (v2, none) => entriesLoop sv fields fm rest (vals.set i v2) unk

/-- The body of `setValue` for one recursion step, abstracted over the
recursive entry points (`sv` for `setValue`, `dm` for `decodeMap`):
nil source zeroes the destination; identical dynamic type assigns
directly; then weak conversions, the slice/map/struct/pointer branches,
and the last-resort conversion, in source order (lines 345–526).
Branches that fail before any `target.Set*` call return `cur`
unchanged, mirroring in-place mutation of `target reflect.Value`. -/
def setValueStep (sv : MapDecoder → Ty → V → V → V × Option Err)
    (dm : MapDecoder → List (String × V) → Ty → V → V × Option Err)
    (d : MapDecoder) (tty : Ty) (cur src : V) : V × Option Err :=
  match src with
  | .vNull => (zeroOf tty, none)
  | _ =>
    if Ty.beq (tyOf src) tty then (src, none)
    else
      match (if d.weaklyTyped then weakConvert tty src else none) with
      | some v => (v, none)
      | none =>
        match tty, src with
        | .tSlice e, .vSlice _ xs =>
            (match sliceLoop (fun x => sv d e (zeroOf e) x) xs with
             | .ok ys => (.vSlice e ys, none)
             | .error err => (cur, some err))
        | .tMap kT vT, .vMap _ _ es =>
            (match mapLoop (fun k => sv d kT (zeroOf kT) k)
                (fun v => sv d vT (zeroOf vT) v) es with
             | .ok es2 => (.vMap kT vT es2, none)
             | .error err => (cur, some err))
        | .tMap kT vT, .vDoc es =>
            (match mapLoop (fun k => sv d kT (zeroOf kT) k)
                (fun v => sv d vT (zeroOf vT) v)
                (es.map (fun kv => (.vString kv.1, kv.2))) with
             | .ok es2 => (.vMap kT vT es2, none)
             | .error err => (cur, some err))
        | .tStruct fs, .vDoc es =>
            dm d es (.tStruct fs) cur
        | .tPtr e, s =>
            (match s with
             | .vPtr _ none => (zeroOf (.tPtr e), none)
             | .vPtr _ (some inner) =>
                 (match sv d e (zeroOf e) inner with
                  | (_, some err) => (cur, some err)
                  | (v2, none) => (.vPtr e (some v2), none))
             | s2 =>
                 (match sv d e (zeroOf e) s2 with
                  | (_, some err) => (cur, some err)
                  | (v2, none) => (.vPtr e (some v2), none)))
        | _, _ =>
            (match goConvert src tty with
             | some v => (v, none)
             | none => (cur, some (.cannotConvert src (tyOf src) tty)))

/-- The body of `decodeMap` after the pointer checks, for one recursion
step, abstracted over the recursive `setValue` entry point: for a struct
destination build the field map, optionally zero the destination, run
the per-key loop, then report an unknown key when not ignoring them;
for a non-struct destination coerce the single value directly when the
document has exactly one entry, else fail (lines 272–341). -/
def structVals : V → List V
  | .vStruct _ vs => vs
  | _ => []

def decodeMapStep (sv : MapDecoder → Ty → V → V → V × Option Err)
    (d : MapDecoder) (m : List (String × V)) (ty : Ty) (cur : V) :
    V × Option Err :=
  match ty with
  | .tStruct fields =>
      let fm := buildFieldMap fields
      let start := if d.zeroFields then zeroOf (.tStruct fields) else cur
      let vals0 := structVals start
      (match entriesLoop (fun t c v => sv d t c v) fields fm m vals0 [] with
       | (vals1, _, some err) => (.vStruct fields vals1, some err)
       | (vals1, unk, none) =>
           if !d.ignoreUnknownKeys && !unk.isEmpty then
             (.vStruct fields vals1, some (.unknownField (unk.headD "")))
           else (.vStruct fields vals1, none))
  | _ =>
      if m.length = 1 then
        match m with
        | (_, v) :: _ => sv d ty cur v
        | [] => (cur, some .notStructOutput)
      else (cur, some .notStructOutput)

mutual

/-- `(*MapDecoder).setValue` (lines 345–526): convert `src` into a
target of type `tty` whose current contents are `cur`, returning the
target's contents afterwards together with the error.  `fuel` is a
recursion budget decremented at each engine-level recursion; exhaustion
reports `Err.outOfFuel` with the target untouched. -/
def setValue : Nat → MapDecoder → Ty → V → V → V × Option Err
  | 0, _, _, cur, _ => (cur, some .outOfFuel)
  | fuel + 1, d, tty, cur, src =>
      setValueStep (setValue fuel) (decodeMapRV fuel) d tty cur src

/-- `(*MapDecoder).decodeMap` after the pointer checks (lines 272–341):
`ty`/`cur` are the type and current contents of the dereferenced
destination. -/
def decodeMapRV : Nat → MapDecoder → List (String × V) → Ty → V →
    V × Option Err
  | 0, _, _, _, cur => (cur, some .outOfFuel)
  | fuel + 1, d, m, ty, cur => decodeMapStep (setValue fuel) d m ty cur

end

/-- A decode destination: the `output interface{}` argument.  A valid
destination is a non-nil pointer with pointee type `ty` and current
pointee contents `cur`. -/
inductive Dest where
  | notPtr
  | nilPtr (e : Ty)
  | ptr (ty : Ty) (cur : V)

/-- `(*MapDecoder).decodeMap` (lines 266–342) including the destination
checks: a non-pointer or nil-pointer output fails immediately. -/
def decodeMap (fuel : Nat) (d : MapDecoder) (m : List (String × V))
    (out : Dest) : Dest × Option Err :=
  match out with
  | .notPtr => (out, some .invalidDest)
  | .nilPtr _ => (out, some .invalidDest)
  | .ptr ty cur =>
      let r := decodeMapRV fuel d m ty cur
      (.ptr ty r.1, r.2)

/-! ## Reverse Projector (`ToMap`) -/

/-- The projected key of a field in `ToMap` (lines 243–252): the tag's
first segment when the tag is non-empty and the segment is neither empty
nor `"-"`, else the declared field name. -/
def toMapName (f : Fi) : String :=
  if f.2.1 ≠ "" ∧ primOf f.2.1 ≠ "" ∧ primOf f.2.1 ≠ "-" then primOf f.2.1
  else f.1

/-- The per-field loop of `ToMap` (lines 234–260): skip unexported
fields, skip fields whose tag's first segment is `"-"`, skip zero-valued
fields whose tag contains `omitempty`, and store every other field's
value under its projected key (`result[name] = value`). -/
def toMapLoop : List Fi → List V → List (String × V) → List (String × V)
  | [], _, acc => acc
  | _ :: _, [], acc => acc
  | f :: fs, v :: vs, acc =>
      if f.2.2.1 = false then toMapLoop fs vs acc
      else if f.2.1 ≠ "" ∧ primOf f.2.1 = "-" then toMapLoop fs vs acc
      else if isZeroV v && goContains f.2.1 "omitempty" then toMapLoop fs vs acc
      else toMapLoop fs vs (upsert acc (toMapName f) v)

/-- `ToMap` (lines 220–263): dereference one pointer layer, fail unless
the result is a struct, then project the fields.  `ToMap` always uses
`NewDecoder()`'s `json` tag namespace. -/
def ToMap (input : V) : Except Err (List (String × V)) :=
  match input with
  | .vPtr _ (some x) =>
      (match x with
       | .vStruct fields vals => .ok (toMapLoop fields vals [])
       | _ => .error .notAStruct)
  | .vPtr _ none => .error .notAStruct
  | .vStruct fields vals => .ok (toMapLoop fields vals [])
  | _ => .error .notAStruct

/-! ## Native Fast Path, Format Detector and public entry points

The JSON and YAML parsers are external libraries (`encoding/json`,
`gopkg.in/yaml.v3`); they are abstracted as a parameter bundle.
A native unmarshal (`json.Unmarshal(v, output)` / `yaml.Unmarshal(v,
output)`) is modeled as a function from the input text and the current
destination to an optional new destination (`none` = the library
returned an error); a generic-map unmarshal is a function from the
input text to an optional document. -/

structure Parsers where
  jsonNative : String → Dest → Option Dest
  jsonMap : String → Option (List (String × V))
  yamlNative : String → Dest → Option Dest
  yamlMap : String → Option (List (String × V))

/-- The JSON part of `Decode`'s `[]byte` case (lines 76–85): native
unmarshal first, then generic-map unmarshal plus `decodeMap`, a parse
failure of the generic unmarshal being wrapped as a JSON parse error. -/
def decodeBytesJSON (P : Parsers) (fuel : Nat) (d : MapDecoder)
    (s : String) (out : Dest) : Dest × Option Err :=
  match P.jsonNative s out with
  | some out2 => (out2, none)
  | none =>
      match P.jsonMap s with
      | none => (out, some .parseJSONFailed)
      | some m => decodeMap fuel d m out

/-- `Decode`'s `[]byte` case (lines 65–85): if the trimmed input is
non-empty and does not start with `{` or `[`, first try a generic-map
YAML parse (decoding its result on success); otherwise — and when that
YAML parse fails — take the JSON path.  The first-byte test is modeled
on the first character (they agree on ASCII `{`/`[`). -/
def decodeBytes (P : Parsers) (fuel : Nat) (d : MapDecoder) (s : String)
    (out : Dest) : Dest × Option Err :=
  let trimmed := goTrimSpace s
  if trimmed.length > 0 ∧ trimmed.front ≠ '{' ∧ trimmed.front ≠ '[' then
    match P.yamlMap s with
    | some m => decodeMap fuel d m out
    | none => decodeBytesJSON P fuel d s out
  else decodeBytesJSON P fuel d s out

/-- A `Decode` input: raw bytes, a string, or a pre-built document.
The remaining `default:` case of the source's type switch
(struct-to-struct copying via `decodeValue`) is outside the modeled
entry points. -/
inductive In where
  | bytes (s : String)
  | str (s : String)
  | mapIn (m : List (String × V))

/-- `(*MapDecoder).Decode` (lines 62–98).  The `string` case re-enters
`Decode` on the byte conversion of the string (line 88), which the model
inlines: a Go `string → []byte` conversion preserves the text. -/
def Decode (P : Parsers) (fuel : Nat) (d : MapDecoder) (input : In)
    (out : Dest) : Dest × Option Err :=
  match input with
  | .bytes s => decodeBytes P fuel d s out
  | .str s => decodeBytes P fuel d s out
  | .mapIn m => decodeMap fuel d m out

/-- `DecodeJSON` (lines 108–110) on text input:
`NewDecoder().Decode(jsonData, output)`. -/
def DecodeJSON (P : Parsers) (fuel : Nat) (s : String) (out : Dest) :
    Dest × Option Err :=
  Decode P fuel NewDecoder (.bytes s) out

/-- `DecodeYAML` (lines 120–146) on text input: a decoder with the
`yaml` tag namespace; native YAML unmarshal first, then generic-map
YAML unmarshal plus `decodeMap`, a parse failure of the generic
unmarshal being wrapped as a YAML parse error. -/
def DecodeYAML (P : Parsers) (fuel : Nat) (s : String) (out : Dest) :
    Dest × Option Err :=
  let d := { NewDecoder with tagName := "yaml" }
  match P.yamlNative s out with
  | some out2 => (out2, none)
  | none =>
      match P.yamlMap s with
      | none => (out, some .parseYAMLFailed)
      | some m => decodeMap fuel d m out

/-- `AutoDecode` (lines 157–198) on text input: trim whitespace, fail on
empty input, and dispatch on the first character: `{`/`[` → JSON first
with a YAML fallback, returning the JSON error when both fail; anything
else → YAML only.  The destination threads through failed attempts,
mirroring the shared `output` pointer. -/
def AutoDecode (P : Parsers) (fuel : Nat) (s : String) (out : Dest) :
    Dest × Option Err :=
  let t := goTrimSpace s
  if t.length = 0 then (out, some .emptyInput)
  else if t.front = '{' ∨ t.front = '[' then
    match DecodeJSON P fuel t out with
    | (out2, none) => (out2, none)
    | (out2, some err) =>
        match DecodeYAML P fuel t out2 with
        | (out3, none) => (out3, none)
        | (out3, some _) => (out3, some err)
  else DecodeYAML P fuel t out

/-- `DecodeMap` (lines 208–210): `NewDecoder().Decode(m, output)`. -/
def DecodeMap (fuel : Nat) (m : List (String × V)) (out : Dest) :
    Dest × Option Err :=
  decodeMap fuel NewDecoder m out

/-! ## Auxiliary definitions for the verification statements -/

/-- Whether a type is of struct kind (`reflect.Kind() == reflect.Struct`). -/
def isStructTy : Ty → Bool
  | .tStruct _ => true
  | _ => false

/-- The default field descriptor used for out-of-range index reads. -/
def dFi : Fi := ("", "", false, .tBool)

/-- A decoder configuration with `IgnoreUnknownKeys` replaced. -/
def withIgnore (d : MapDecoder) (b : Bool) : MapDecoder :=
  { d with ignoreUnknownKeys := b }

/-- A parser bundle in which every library call fails. -/
def noParsers : Parsers :=
  { jsonNative := fun _ _ => none, jsonMap := fun _ => none,
    yamlNative := fun _ _ => none, yamlMap := fun _ => none }

/-- A parser bundle whose native JSON unmarshal always succeeds
without touching the destination. -/
def jsonOkParsers : Parsers :=
  { jsonNative := fun _ out => some out, jsonMap := fun _ => none,
    yamlNative := fun _ _ => none, yamlMap := fun _ => none }

/-! ## C10 — string and byte inputs are interchangeable -/

/-- C10: for every string `s` and destination, `Decode` on the string
input produces exactly the same result (destination state and error) as
`Decode` on the byte-slice conversion of `s`: the `string` case of the
type switch merely re-enters `Decode` on `[]byte(v)`. -/
theorem c10_decode_string_eq_bytes (P : Parsers) (fuel : Nat)
    (d : MapDecoder) (s : String) (out : Dest) :
    Decode P fuel d (.str s) out = Decode P fuel d (.bytes s) out := rfl

/-! ## C6 — AutoDecode format-detection order -/

/-- C6: `AutoDecode` on input whose trimmed text is empty fails with the
empty-input error; when the first character is `{` or `[` it attempts
JSON first and falls back to YAML only if JSON fails, returning the JSON
error when both fail; for any other first character only YAML is
attempted. -/
theorem c6_autoDecode_detection (P : Parsers) (fuel : Nat) (s : String)
    (out : Dest) :
    ((goTrimSpace s).length = 0 →
      AutoDecode P fuel s out = (out, some .emptyInput)) ∧
    ((goTrimSpace s).length ≠ 0 →
      ((goTrimSpace s).front = '{' ∨ (goTrimSpace s).front = '[') →
      ((∀ r, DecodeJSON P fuel (goTrimSpace s) out = (r, none) →
          AutoDecode P fuel s out = (r, none)) ∧
       (∀ r e r2, DecodeJSON P fuel (goTrimSpace s) out = (r, some e) →
          DecodeYAML P fuel (goTrimSpace s) r = (r2, none) →
          AutoDecode P fuel s out = (r2, none)) ∧
       (∀ r e r2 e2, DecodeJSON P fuel (goTrimSpace s) out = (r, some e) →
          DecodeYAML P fuel (goTrimSpace s) r = (r2, some e2) →
          AutoDecode P fuel s out = (r2, some e)))) ∧
    ((goTrimSpace s).length ≠ 0 → (goTrimSpace s).front ≠ '{' →
      (goTrimSpace s).front ≠ '[' →
      AutoDecode P fuel s out = DecodeYAML P fuel (goTrimSpace s) out) := by
  refine ⟨?_, ?_, ?_⟩
  · intro h0
    simp [AutoDecode, h0]
  · intro h1 h2
    refine ⟨?_, ?_, ?_⟩
    · intro r hj
      simp only [AutoDecode]
      rw [if_neg h1, if_pos h2, hj]
    · intro r e r2 hj hy
      simp only [AutoDecode]
      rw [if_neg h1, if_pos h2, hj]
      dsimp only
      rw [hy]
    · intro r e r2 e2 hj hy
      simp only [AutoDecode]
      rw [if_neg h1, if_pos h2, hj]
      dsimp only
      rw [hy]
  · intro h1 ha hb
    simp only [AutoDecode]
    rw [if_neg h1, if_neg (by rintro (h | h) <;> [exact ha h; exact hb h])]

/-- Witness for C6 at concrete inputs: whitespace-only input fails with
the empty-input error, and a `[`-led input on which both parses fail
returns the JSON error (not the YAML one). -/
theorem c6_autoDecode_detection_witness :
    AutoDecode noParsers 1 "   " .notPtr = (.notPtr, some .emptyInput) ∧
    AutoDecode noParsers 1 "[1]" .notPtr =
      (.notPtr, some .parseJSONFailed) := by
  constructor
  · exact (c6_autoDecode_detection noParsers 1 "   " .notPtr).1 rfl
  · exact (c6_autoDecode_detection noParsers 1 "[1]" .notPtr).2.1
      (by decide) (Or.inr rfl) |>.2.2 .notPtr .parseJSONFailed .notPtr
      .parseYAMLFailed rfl rfl

/-! ## C9 — the native JSON fast path bypasses unknown-key checking -/

/-- C9: whenever the native JSON unmarshal succeeds on a byte or string
input (and the YAML-first pre-branch does not divert, i.e. the input
looks JSON-shaped or the generic YAML parse fails), `Decode` returns
that success immediately — for every decoder configuration, in
particular with `IgnoreUnknownKeys = false` — so no unknown-key
checking or tag-based field resolution is performed. -/
theorem c9_fastpath_skips_unknown_checks (P : Parsers) (fuel : Nat)
    (d : MapDecoder) (s : String) (out out2 : Dest)
    (hnative : P.jsonNative s out = some out2)
    (hyaml : ((goTrimSpace s).length > 0 ∧ (goTrimSpace s).front ≠ '{' ∧
        (goTrimSpace s).front ≠ '[') → P.yamlMap s = none) :
    Decode P fuel d (.bytes s) out = (out2, none) ∧
    Decode P fuel d (.str s) out = (out2, none) := by
  have hb : decodeBytes P fuel d s out = (out2, none) := by
    unfold decodeBytes
    by_cases hc : (goTrimSpace s).length > 0 ∧ (goTrimSpace s).front ≠ '{' ∧
        (goTrimSpace s).front ≠ '['
    · rw [if_pos hc, hyaml hc]
      unfold decodeBytesJSON
      rw [hnative]
    · rw [if_neg hc]
      unfold decodeBytesJSON
      rw [hnative]
  exact ⟨hb, hb⟩

/-- Witness for C9: a `[`-led input that the native JSON fast path
accepts decodes successfully even with `IgnoreUnknownKeys = false`. -/
theorem c9_fastpath_skips_unknown_checks_witness :
    Decode jsonOkParsers 1 (withIgnore NewDecoder false) (.bytes "[7]")
      .notPtr = (.notPtr, none) ∧
    Decode jsonOkParsers 1 (withIgnore NewDecoder false) (.str "[7]")
      .notPtr = (.notPtr, none) :=
  c9_fastpath_skips_unknown_checks jsonOkParsers 1
    (withIgnore NewDecoder false) "[7]" .notPtr .notPtr rfl
    (fun h => absurd rfl h.2.2)

/-! ## C8 — destination precondition of the Map Decode Engine -/

/-- C8 (amended): a non-pointer or nil-pointer destination fails with
the invalid-destination error; a valid pointer to a non-struct value
attempts to coerce the single value directly into the destination
exactly when the document has exactly one entry — succeeding exactly
when that coercion succeeds — and fails with the
non-struct-output error when the entry count differs from one. -/
theorem c8_dest_precondition (fuel : Nat) (d : MapDecoder)
    (m : List (String × V)) (ty : Ty) (cur : V) (k : String) (v : V) :
    (decodeMap fuel d m .notPtr = (.notPtr, some .invalidDest)) ∧
    (∀ e, decodeMap fuel d m (.nilPtr e) = (.nilPtr e, some .invalidDest)) ∧
    (isStructTy ty = false → m = [(k, v)] →
      decodeMap (fuel + 1) d m (.ptr ty cur) =
        (.ptr ty (setValue fuel d ty cur v).1, (setValue fuel d ty cur v).2)) ∧
    (isStructTy ty = false → m.length ≠ 1 →
      decodeMap (fuel + 1) d m (.ptr ty cur) =
        (.ptr ty cur, some .notStructOutput)) := by
  refine ⟨rfl, fun e => rfl, ?_, ?_⟩
  · intro hns hm
    subst hm
    cases ty <;> (try simp [isStructTy] at hns) <;> rfl
  · intro hns hm
    cases ty <;> (try simp [isStructTy] at hns) <;>
      simp [decodeMap, decodeMapRV, decodeMapStep, hm]

/-- C8 counterexample: a document with exactly one entry decoded into a
valid pointer to a non-struct destination can still fail: the claim's
"succeeds if and only if the document has exactly one entry" direction
fails when the single-value coercion fails. -/
theorem c8_counterexample :
    DecodeMap 5 [("x", .vString "zz")] (.ptr (.tInt .i) (.vInt .i 0)) =
      (.ptr (.tInt .i) (.vInt .i 0),
        some (.cannotConvert (.vString "zz") .tString (.tInt .i))) := rfl

/-- Witness for C8: the single-value escape coerces a one-entry document
directly into an integer destination. -/
theorem c8_dest_precondition_witness :
    DecodeMap 4 [("x", .vFloat64 7)] (.ptr (.tInt .i) (.vInt .i 0)) =
      (.ptr (.tInt .i) (.vInt .i 7), none) :=
  (c8_dest_precondition 3 NewDecoder [("x", .vFloat64 7)] (.tInt .i)
    (.vInt .i 0) "x" (.vFloat64 7)).2.2.1 rfl rfl

/-! ## C7 — string-to-bool coercion -/

/-- C7: with weak typing enabled, a string whose lowercase form is one
of `true,1,t,yes,y,on` sets a bool destination to `true`; one of
`false,0,f,no,n,off` sets it to `false`; a string outside both sets
that `strconv.ParseBool` also rejects fails with the conversion error,
leaving the destination unchanged. -/
theorem c7_string_to_bool (fuel : Nat) (d : MapDecoder) (cur : V)
    (s : String) (hw : d.weaklyTyped = true) :
    (goToLower s ∈ ["true", "1", "t", "yes", "y", "on"] →
      setValue (fuel + 1) d .tBool cur (.vString s) = (.vBool true, none)) ∧
    (goToLower s ∈ ["false", "0", "f", "no", "n", "off"] →
      setValue (fuel + 1) d .tBool cur (.vString s) = (.vBool false, none)) ∧
    (goToLower s ∉ ["true", "1", "t", "yes", "y", "on"] →
      goToLower s ∉ ["false", "0", "f", "no", "n", "off"] →
      goParseBool s = none →
      setValue (fuel + 1) d .tBool cur (.vString s) =
        (cur, some (.cannotConvert (.vString s) .tString .tBool))) := by
  refine ⟨?_, ?_, ?_⟩
  · intro h
    simp [setValue, setValueStep, tyOf, Ty.beq, hw, weakConvert, h]
  · intro h
    by_cases h1 : goToLower s ∈ ["true", "1", "t", "yes", "y", "on"]
    · -- both membership tests cannot hold at once: the lowercase sets
      -- are disjoint
      exfalso
      simp only [List.mem_cons, List.not_mem_nil, or_false] at h h1
      rcases h1 with h1 | h1 | h1 | h1 | h1 | h1 <;> rw [h1] at h <;>
        simp at h
    · simp [setValue, setValueStep, tyOf, Ty.beq, hw, weakConvert, h, h1]
  · intro h1 h2 h3
    simp [setValue, setValueStep, tyOf, Ty.beq, hw, weakConvert, h1, h2, h3, goConvert]

/-- Witness for C7: `"YES"` coerces to `true`, `"off"` to `false`, and
`"maybe"` fails with a conversion error. -/
theorem c7_string_to_bool_witness :
    setValue 2 NewDecoder .tBool (.vBool false) (.vString "YES") =
      (.vBool true, none) ∧
    setValue 2 NewDecoder .tBool (.vBool true) (.vString "off") =
      (.vBool false, none) ∧
    setValue 2 NewDecoder .tBool (.vBool false) (.vString "maybe") =
      (.vBool false, some (.cannotConvert (.vString "maybe") .tString .tBool)) :=
  ⟨(c7_string_to_bool 1 NewDecoder (.vBool false) "YES" rfl).1 (by decide),
   (c7_string_to_bool 1 NewDecoder (.vBool true) "off" rfl).2.1 (by decide),
   (c7_string_to_bool 1 NewDecoder (.vBool false) "maybe" rfl).2.2
     (by decide) (by decide) rfl⟩

/-! ## C5 — string-to-integer coercion -/

/-- Whether a string matches the claim's regular expression
`^-?[0-9]+$`. -/
def intLit (s : String) : Bool :=
  match s.data with
  | '-' :: rest => !rest.isEmpty && rest.all Char.isDigit
  | cs => !cs.isEmpty && cs.all Char.isDigit

/-- The integer value denoted by a string matching `^-?[0-9]+$`. -/
def intLitVal (s : String) : Int :=
  match s.data with
  | '-' :: rest => -(digitsNat rest : Int)
  | cs => (digitsNat cs : Int)

/-- `strconv.ParseInt` on a string matching `^-?[0-9]+$` returns its
value exactly when the value fits the signed width, and an error
otherwise. -/
theorem intLit_parseInt (s : String) (bits : Nat) (h : intLit s = true) :
    goParseInt s bits =
      if -(2 ^ (bits - 1) : Int) ≤ intLitVal s ∧ intLitVal s < 2 ^ (bits - 1)
      then some (intLitVal s) else none := by
  unfold intLit at h
  unfold goParseInt intLitVal
  cases hd : s.data with
  | nil => rw [hd] at h; simp at h
  | cons c cs =>
      rw [hd] at h
      by_cases hc : c = '-'
      · subst hc
        have h2 : (!cs.isEmpty && cs.all Char.isDigit) = true := h
        have hne : cs.isEmpty = false := by
          cases hcs : cs.isEmpty
          · rfl
          · rw [hcs] at h2; simp at h2
        have hdig : cs.all Char.isDigit = true := by
          rw [hne] at h2; simpa using h2
        simp [digitsVal, hne, hdig]
      · have hh : (!(c :: cs).isEmpty && (c :: cs).all Char.isDigit)
            = true := by
          revert h
          split
          · next heq => injection heq with he _; exact absurd he hc
          · exact fun h => h
        have hcd : c.isDigit = true := by
          simp only [List.isEmpty_cons, Bool.not_false, Bool.true_and,
            List.all_cons, Bool.and_eq_true] at hh
          exact hh.1
        have hp : c ≠ '+' := by
          intro hcp; rw [hcp] at hcd; exact absurd hcd (by decide)
        have hm : (match (c :: cs : List Char) with
            | '-' :: rest => ((true : Bool), rest)
            | '+' :: rest => ((false : Bool), rest)
            | cs => ((false : Bool), cs)) = (false, c :: cs) := by
          split
          · next heq => injection heq with he _; exact absurd he hc
          · next heq => injection heq with he _; exact absurd he hp
          · rfl
        have hm2 : (match (c :: cs : List Char) with
            | '-' :: rest => -(digitsNat rest : Int)
            | cs => (digitsNat cs : Int)) = (digitsNat (c :: cs) : Int) := by
          split
          · next heq => injection heq with he _; exact absurd he hc
          · rfl
        rw [hm, hm2]
        have hne : (c :: cs).isEmpty = false := rfl
        have hdig : (c :: cs).all Char.isDigit = true := by
          simpa [hne] using hh
        simp [digitsVal, hne, hdig]

/-- C7-style canonical destination for the C5 statements. -/
def intField (w : IntW) : List Fi := [("N", "n", true, .tInt w)]

/-- C5: with weak typing enabled, decoding a document that maps a key to
a string matching `^-?[0-9]+$` into a record with an integer field of
width `w` stores the parsed base-10 value when it fits the width; when
the value is out of range the decode fails with a wrapped conversion
error naming the field (the zero in the field comes from the upfront
zeroing, and the failure is reported, never silent). -/
theorem c5_string_to_int (fuel : Nat) (d : MapDecoder) (w : IntW)
    (s : String) (hw : d.weaklyTyped = true) (hlit : intLit s = true) :
    (-(2 ^ (w.bits - 1) : Int) ≤ intLitVal s ∧
        intLitVal s < 2 ^ (w.bits - 1) →
      decodeMap (fuel + 2) d [("n", .vString s)]
        (.ptr (.tStruct (intField w)) (zeroOf (.tStruct (intField w)))) =
      (.ptr (.tStruct (intField w))
        (.vStruct (intField w) [.vInt w (intLitVal s)]), none)) ∧
    (¬(-(2 ^ (w.bits - 1) : Int) ≤ intLitVal s ∧
        intLitVal s < 2 ^ (w.bits - 1)) →
      decodeMap (fuel + 2) d [("n", .vString s)]
        (.ptr (.tStruct (intField w)) (zeroOf (.tStruct (intField w)))) =
      (.ptr (.tStruct (intField w)) (.vStruct (intField w) [.vInt w 0]),
        some (.fieldErr "N"
          (.cannotConvert (.vString s) .tString (.tInt w))))) := by
  have hparse := intLit_parseInt s w.bits hlit
  constructor
  · intro hrange
    rw [if_pos hrange] at hparse
    simp [decodeMap, decodeMapRV, decodeMapStep, entriesLoop, resolveKey,
      lookupA, buildFieldMap, buildFM, upsert, primOf, goSplitComma,
      splitList, goToLower, charLower, zeroOf, zeroFieldVals, intField,
      structVals, setValue, setValueStep, tyOf, Ty.beq, hw, weakConvert,
      hparse]
  · intro hrange
    rw [if_neg hrange] at hparse
    simp [decodeMap, decodeMapRV, decodeMapStep, entriesLoop, resolveKey,
      lookupA, buildFieldMap, buildFM, upsert, primOf, goSplitComma,
      splitList, goToLower, charLower, zeroOf, zeroFieldVals, intField,
      structVals, setValue, setValueStep, tyOf, Ty.beq, hw, weakConvert,
      hparse, goConvert]

/-- Witness for C5: `"42"` decodes into an `int8` field, and `"300"`
(out of the `int8` range) fails with the wrapped conversion error. -/
theorem c5_string_to_int_witness :
    decodeMap 3 NewDecoder [("n", .vString "42")]
      (.ptr (.tStruct (intField .i8)) (zeroOf (.tStruct (intField .i8)))) =
      (.ptr (.tStruct (intField .i8))
        (.vStruct (intField .i8) [.vInt .i8 42]), none) ∧
    decodeMap 3 NewDecoder [("n", .vString "300")]
      (.ptr (.tStruct (intField .i8)) (zeroOf (.tStruct (intField .i8)))) =
      (.ptr (.tStruct (intField .i8)) (.vStruct (intField .i8) [.vInt .i8 0]),
        some (.fieldErr "N"
          (.cannotConvert (.vString "300") .tString (.tInt .i8)))) :=
  ⟨(c5_string_to_int 1 NewDecoder .i8 "42" rfl rfl).1 (by decide),
   (c5_string_to_int 1 NewDecoder .i8 "300" rfl rfl).2 (by decide)⟩

/-! ## C1 — the `"-"` tag and field resolution -/

/-- A successful association-list lookup is a membership. -/
theorem lookupA_mem {α : Type} :
    ∀ (m : List (String × α)) (k : String) (v : α),
      lookupA m k = some v → (k, v) ∈ m
  | [], _, _, h => by simp [lookupA] at h
  | (k0, v0) :: rest, k, v, h => by
      unfold lookupA at h
      by_cases hk : k0 = k
      · rw [if_pos hk] at h
        subst hk
        injection h with h
        subst h
        exact List.mem_cons_self _ _
      · rw [if_neg hk] at h
        exact List.mem_cons_of_mem _ (lookupA_mem rest k v h)

/-- Every entry of `upsert m k v` is the new binding or an old entry. -/
theorem upsert_mem {α : Type} :
    ∀ (m : List (String × α)) (k : String) (v : α) (p : String × α),
      p ∈ upsert m k v → p = (k, v) ∨ p ∈ m
  | [], k, v, p, h => by
      simp [upsert] at h
      exact Or.inl h
  | (k0, v0) :: rest, k, v, p, h => by
      unfold upsert at h
      by_cases hk : k0 = k
      · rw [if_pos hk] at h
        rcases List.mem_cons.mp h with h | h
        · exact Or.inl h
        · exact Or.inr (List.mem_cons_of_mem _ h)
      · rw [if_neg hk] at h
        rcases List.mem_cons.mp h with h | h
        · exact Or.inr (h ▸ List.mem_cons_self _ _)
        · rcases upsert_mem rest k v p h with h | h
          · exact Or.inl h
          · exact Or.inr (List.mem_cons_of_mem _ h)

/-- What a field-map entry can be: the lowercase name of the field it
points to, or that field's tag-derived primary name (only when the tag
is non-empty and its first segment is neither empty nor `"-"`). -/
def fmEntryOK (fields : List Fi) (p : String × Nat) : Prop :=
  p.1 = goToLower (fields.getD p.2 dFi).1 ∨
  ((fields.getD p.2 dFi).2.1 ≠ "" ∧ primOf (fields.getD p.2 dFi).2.1 = p.1 ∧
    p.1 ≠ "" ∧ p.1 ≠ "-")

/-- Invariant of the field-map construction: every entry is a lowercase
field name or a sanctioned tag-derived name of the field it indexes. -/
theorem buildFM_ok :
    ∀ (fs : List Fi) (i0 : Nat) (acc : List (String × Nat))
      (fields : List Fi),
      (∀ j, fs[j]? = fields[i0 + j]?) →
      (∀ p ∈ acc, fmEntryOK fields p) →
      ∀ p ∈ buildFM fs i0 acc, fmEntryOK fields p
  | [], i0, acc, fields, _, hacc, p, hp => hacc p hp
  | f :: fs, i0, acc, fields, hdrop, hacc, p, hp => by
      have hf : fields.getD i0 dFi = f := by
        have h0 := hdrop 0
        simp at h0
        rw [List.getD_eq_getElem?_getD, ← h0]
        rfl
      have hdrop2 : ∀ j, fs[j]? = fields[i0 + 1 + j]? := by
        intro j
        have := hdrop (j + 1)
        simpa [Nat.add_comm, Nat.add_left_comm, Nat.add_assoc] using this
      unfold buildFM at hp
      by_cases hexp : f.2.2.1 = false
      · rw [if_pos hexp] at hp
        exact buildFM_ok fs (i0 + 1) acc fields hdrop2 hacc p hp
      · rw [if_neg hexp] at hp
        refine buildFM_ok fs (i0 + 1) _ fields hdrop2 ?_ p hp
        intro q hq
        rcases upsert_mem _ _ _ _ hq with hq | hq
        · subst hq
          exact Or.inl (by rw [hf])
        · by_cases htag : f.2.1 ≠ ""
          · rw [if_pos htag] at hq
            by_cases hprim : primOf f.2.1 ≠ "" ∧ primOf f.2.1 ≠ "-"
            · rw [if_pos hprim] at hq
              rcases upsert_mem _ _ _ _ hq with hq | hq
              · subst hq
                exact Or.inr ⟨by rw [hf]; exact htag, by rw [hf],
                  hprim.1, hprim.2⟩
              · exact hacc q hq
            · rw [if_neg hprim] at hq
              exact hacc q hq
          · rw [if_neg htag] at hq
            exact hacc q hq

/-- C1 (amended): a tag of exactly `"-"` suppresses only the
tag-derived primary name; the lowercase field name is still registered,
so the only keys that resolve to a `"-"`-tagged field are its lowercase
field name (matched exactly or case-insensitively). -/
theorem c1_dash_tag_resolution (fields : List Fi) (k : String) (i : Nat)
    (hres : resolveKey (buildFieldMap fields) k = some i)
    (hdash : primOf (fields.getD i dFi).2.1 = "-") :
    k = goToLower (fields.getD i dFi).1 ∨
    goToLower k = goToLower (fields.getD i dFi).1 := by
  have hok : ∀ p ∈ buildFieldMap fields, fmEntryOK fields p := by
    refine buildFM_ok fields 0 [] fields ?_ ?_
    · intro j; simp
    · intro p hp; simp at hp
  unfold resolveKey at hres
  cases hl : lookupA (buildFieldMap fields) k with
  | some j =>
      rw [hl] at hres
      injection hres with hres
      subst hres
      rcases hok (k, j) (lookupA_mem _ _ _ hl) with h | h
      · exact Or.inl h
      · exact absurd (hdash ▸ h.2.1) h.2.2.2.symm
  | none =>
      rw [hl] at hres
      rcases hok (goToLower k, i) (lookupA_mem _ _ _ hres) with h | h
      · exact Or.inr h
      · exact absurd (hdash ▸ h.2.1) h.2.2.2.symm

/-- C1 counterexample: a field tagged exactly `"-"` is still decoded
when the document key equals the lowercase field name — the field is not
excluded entirely. -/
theorem c1_counterexample :
    DecodeMap 3 [("secret", .vString "x")]
      (.ptr (.tStruct [("Secret", "-", true, .tString)])
        (zeroOf (.tStruct [("Secret", "-", true, .tString)]))) =
      (.ptr (.tStruct [("Secret", "-", true, .tString)])
        (.vStruct [("Secret", "-", true, .tString)] [.vString "x"]),
        none) := rfl

/-- Witness for C1 (amended): the only key reaching the `"-"`-tagged
field `Secret` is its lowercase name. -/
theorem c1_dash_tag_resolution_witness :
    "secret" =
      goToLower (([("Secret", "-", true, .tString)] : List Fi).getD 0 dFi).1 ∨
    goToLower "secret" =
      goToLower (([("Secret", "-", true, .tString)] : List Fi).getD 0 dFi).1 :=
  c1_dash_tag_resolution [("Secret", "-", true, .tString)] "secret" 0 rfl rfl

/-! ## C2 — mutation behavior of a failed field conversion -/

/-- C2 counterexample: a nested-record field conversion that fails
leaves the field zeroed and partially populated — not as it was before
the conversion attempt — even though the error is surfaced.  Here the
field held `(7, 7)`; after the failed conversion of `(a = "1",
b = "zz")` it holds `(1, 0)`. -/
theorem c2_counterexample :
    setValue 5 NewDecoder
      (.tStruct [("A", "", true, .tInt .i), ("B", "", true, .tInt .i)])
      (.vStruct [("A", "", true, .tInt .i), ("B", "", true, .tInt .i)]
        [.vInt .i 7, .vInt .i 7])
      (.vDoc [("a", .vString "1"), ("b", .vString "zz")]) =
      (.vStruct [("A", "", true, .tInt .i), ("B", "", true, .tInt .i)]
        [.vInt .i 1, .vInt .i 0],
        some (.fieldErr "B"
          (.cannotConvert (.vString "zz") .tString (.tInt .i)))) ∧
    (V.vStruct [("A", "", true, .tInt .i), ("B", "", true, .tInt .i)]
        [.vInt .i 1, .vInt .i 0] ≠
      .vStruct [("A", "", true, .tInt .i), ("B", "", true, .tInt .i)]
        [.vInt .i 7, .vInt .i 7]) := by
  refine ⟨rfl, ?_⟩
  intro h
  injection h with _ h2
  injection h2 with h3 _
  injection h3 with _ h4
  simp at h4

/-- C2 (amended): a failed conversion is always surfaced as an error,
and whenever the destination's type is not of struct kind the failed
`setValue` leaves the destination exactly as it was (every failing
branch returns before any mutation); only a nested-record destination —
populated in place through the recursive `decodeMap` — can be left
zeroed or partially populated on failure. -/
theorem c2_fail_nonstruct_unchanged (fuel : Nat) (d : MapDecoder)
    (tty : Ty) (cur src : V) (e : Err) (hns : isStructTy tty = false)
    (he : (setValue fuel d tty cur src).2 = some e) :
    (setValue fuel d tty cur src).1 = cur := by
  rcases hsv : setValue fuel d tty cur src with ⟨v, err⟩
  rw [hsv] at he
  simp only at he
  subst he
  show v = cur
  cases fuel with
  | zero =>
      unfold setValue at hsv
      injection hsv with h1 _
      exact h1.symm
  | succ n =>
      rw [show setValue (n + 1) d tty cur src =
            setValueStep (setValue n) (decodeMapRV n) d tty cur src
          from rfl] at hsv
      unfold setValueStep at hsv
      split at hsv
      · simp at hsv
      · split at hsv
        · simp at hsv
        · split at hsv
          · simp at hsv
          · split at hsv
            · -- slice target
              split at hsv
              · simp at hsv
              · injection hsv with h1 _; exact h1.symm
            · -- map target, typed-map source
              split at hsv
              · simp at hsv
              · injection hsv with h1 _; exact h1.symm
            · -- map target, document source
              split at hsv
              · simp at hsv
              · injection hsv with h1 _; exact h1.symm
            · -- struct target: excluded by the kind hypothesis
              simp [isStructTy] at hns
            · -- pointer target
              split at hsv
              · simp at hsv
              · split at hsv
                · injection hsv with h1 _; exact h1.symm
                · simp at hsv
              · split at hsv
                · injection hsv with h1 _; exact h1.symm
                · simp at hsv
            · -- last-resort conversion
              split at hsv
              · simp at hsv
              · injection hsv with h1 _; exact h1.symm

/-- Witness for C2 (amended): a failed string-to-int8 conversion leaves
the previous field contents `5` untouched. -/
theorem c2_fail_nonstruct_unchanged_witness :
    (setValue 2 NewDecoder (.tInt .i8) (.vInt .i8 5) (.vString "300")).1 =
      .vInt .i8 5 :=
  c2_fail_nonstruct_unchanged 2 NewDecoder (.tInt .i8) (.vInt .i8 5)
    (.vString "300") (.cannotConvert (.vString "300") .tString (.tInt .i8))
    rfl rfl

/-! ## C3 — unknown-key behavior

The two runs compared by the claim differ only in `IgnoreUnknownKeys`,
which the engine reads in exactly one place: the final check of
`decodeMap`.  The congruence lemmas below show that a run that
succeeded with the flag off is reproduced verbatim with the flag on. -/

theorem withIgnore_weaklyTyped (d : MapDecoder) (b : Bool) :
    (withIgnore d b).weaklyTyped = d.weaklyTyped := rfl

theorem withIgnore_ignore (d : MapDecoder) (b : Bool) :
    (withIgnore d b).ignoreUnknownKeys = b := rfl

theorem withIgnore_zeroFields (d : MapDecoder) (b : Bool) :
    (withIgnore d b).zeroFields = d.zeroFields := rfl

/-- A successful `sliceLoop` run is reproduced by any converter that
reproduces the successful element conversions. -/
theorem sliceLoop_congr_ok (c1 c2 : V → V × Option Err)
    (h : ∀ x r, c1 x = (r, none) → c2 x = (r, none)) :
    ∀ (xs ys : List V), sliceLoop c1 xs = .ok ys → sliceLoop c2 xs = .ok ys
  | [], ys, hx => hx
  | x :: xs, ys, hx => by
      unfold sliceLoop at hx ⊢
      rcases h1 : c1 x with ⟨r, err⟩
      rw [h1] at hx
      cases err with
      | some e => simp at hx
      | none =>
          rw [h x r h1]
          rcases h2 : sliceLoop c1 xs with e2 | ys2
          · rw [h2] at hx; simp at hx
          · rw [h2] at hx
            rw [sliceLoop_congr_ok c1 c2 h xs ys2 h2]
            exact hx

/-- A successful `mapLoop` run is reproduced by converters that
reproduce the successful key and value conversions. -/
theorem mapLoop_congr_ok (k1 k2 v1 v2 : V → V × Option Err)
    (hk : ∀ x r, k1 x = (r, none) → k2 x = (r, none))
    (hv : ∀ x r, v1 x = (r, none) → v2 x = (r, none)) :
    ∀ (es out : List (V × V)), mapLoop k1 v1 es = .ok out →
      mapLoop k2 v2 es = .ok out
  | [], out, hx => hx
  | (k, v) :: es, out, hx => by
      unfold mapLoop at hx ⊢
      rcases h1 : k1 k with ⟨r1, err1⟩
      rw [h1] at hx
      cases err1 with
      | some e => simp at hx
      | none =>
          rw [hk k r1 h1]
          rcases h2 : v1 v with ⟨r2, err2⟩
          rw [h2] at hx
          cases err2 with
          | some e => simp at hx
          | none =>
              rw [hv v r2 h2]
              rcases h3 : mapLoop k1 v1 es with e3 | out3
              · rw [h3] at hx; simp at hx
              · rw [h3] at hx
                rw [mapLoop_congr_ok k1 k2 v1 v2 hk hv es out3 h3]
                exact hx

/-- A successful `entriesLoop` run is reproduced by a field converter
that reproduces the successful conversions, with the same final values
and the same unknown-key list. -/
theorem entriesLoop_congr_ok (sv1 sv2 : Ty → V → V → V × Option Err)
    (fields : List Fi) (fm : List (String × Nat))
    (h : ∀ t c x r, sv1 t c x = (r, none) → sv2 t c x = (r, none)) :
    ∀ (m : List (String × V)) (vals : List V) (unk : List String)
      (vals2 : List V) (unk2 : List String),
      entriesLoop sv1 fields fm m vals unk = (vals2, unk2, none) →
      entriesLoop sv2 fields fm m vals unk = (vals2, unk2, none)
  | [], _, _, _, _, hx => hx
  | (key, value) :: rest, vals, unk, vals2, unk2, hx => by
      unfold entriesLoop at hx ⊢
      cases hres : resolveKey fm key with
      | none =>
          rw [hres] at hx
          exact entriesLoop_congr_ok sv1 sv2 fields fm h rest vals
            (unk ++ [key]) vals2 unk2 hx
      | some i =>
          rw [hres] at hx
          dsimp only at hx ⊢
          rcases h1 : sv1 (fields.getD i ("", "", false, .tBool)).2.2.2
              (vals.getD i .vNull) value with ⟨r, err⟩
          rw [h1] at hx
          cases err with
          | some e => simp at hx
          | none =>
              rw [h _ _ _ r h1]
              exact entriesLoop_congr_ok sv1 sv2 fields fm h rest
                (vals.set i r) unk vals2 unk2 hx


theorem ignore_mono : ∀ fuel : Nat,
    (∀ d tty cur src v, setValue fuel d tty cur src = (v, none) →
      setValue fuel (withIgnore d true) tty cur src = (v, none)) ∧
    (∀ d m ty cur v, decodeMapRV fuel d m ty cur = (v, none) →
      decodeMapRV fuel (withIgnore d true) m ty cur = (v, none)) := by
  intro fuel
  induction fuel with
  | zero =>
      constructor
      · intro d tty cur src v h; simp [setValue] at h
      · intro d m ty cur v h; simp [decodeMapRV] at h
  | succ n ih =>
      constructor
      · intro d tty cur src v h
        have h' : setValueStep (setValue n) (decodeMapRV n) d tty cur src
            = (v, none) := h
        show setValueStep (setValue n) (decodeMapRV n) (withIgnore d true)
            tty cur src = (v, none)
        clear h
        unfold setValueStep at h' ⊢
        split at h'
        · exact h'
        · rw [withIgnore_weaklyTyped]
          split at h'
          · next hbeq => rw [if_pos hbeq]; exact h'
          · next hbeq =>
              rw [if_neg hbeq]
              split at h'
              · exact h'
              · split at h'
                · -- slice
                  split at h'
                  · next ys heq2 =>
                      rw [sliceLoop_congr_ok _ _
                        (fun x r hx => ih.1 _ _ _ x r hx) _ _ heq2]
                      exact h'
                  · next err heq2 => simp at h'
                · -- map, typed-map source
                  split at h'
                  · next es2 heq2 =>
                      rw [mapLoop_congr_ok _ _ _ _
                        (fun x r hx => ih.1 _ _ _ x r hx)
                        (fun x r hx => ih.1 _ _ _ x r hx) _ _ heq2]
                      exact h'
                  · next err heq2 => simp at h'
                · -- map, document source
                  split at h'
                  · next es2 heq2 =>
                      rw [mapLoop_congr_ok _ _ _ _
                        (fun x r hx => ih.1 _ _ _ x r hx)
                        (fun x r hx => ih.1 _ _ _ x r hx) _ _ heq2]
                      exact h'
                  · next err heq2 => simp at h'
                · -- struct
                  exact ih.2 _ _ _ _ _ h'
                · -- pointer
                  split at h'
                  · exact h'
                  · split at h'
                    · next fst err heq2 => simp at h'
                    · next v2 heq2 =>
                        rw [ih.1 _ _ _ _ _ heq2]
                        exact h'
                  · split at h'
                    · next fst err heq2 => simp at h'
                    · next v2 heq2 =>
                        rw [ih.1 _ _ _ _ _ heq2]
                        exact h'
                · -- last-resort conversion
                  exact h'
      · intro d m ty cur v h
        have h' : decodeMapStep (setValue n) d m ty cur = (v, none) := h
        show decodeMapStep (setValue n) (withIgnore d true) m ty cur
            = (v, none)
        clear h
        unfold decodeMapStep at h' ⊢
        split at h'
        · -- struct destination
          rw [withIgnore_zeroFields]
          split at h'
          · next hz =>
              rw [if_pos hz]
              dsimp only at h' ⊢
              split at h'
              · next vals1 w err heq => simp at h'
              · next vals1 unk2 heq =>
                  rw [entriesLoop_congr_ok _ _ _ _
                    (fun t c x r hx => ih.1 d t c x r hx) _ _ _ _ _ heq]
                  split at h'
                  · simp at h'
                  · exact h'
          · next hz =>
              rw [if_neg hz]
              dsimp only at h' ⊢
              split at h'
              · next vals1 w err heq => simp at h'
              · next vals1 unk2 heq =>
                  rw [entriesLoop_congr_ok _ _ _ _
                    (fun t c x r hx => ih.1 d t c x r hx) _ _ _ _ _ heq]
                  split at h'
                  · simp at h'
                  · exact h'
        · -- non-struct destination: the single-value escape
          split at h'
          · next hm =>
              rw [if_pos hm]
              split at h'
              · exact ih.1 _ _ _ _ _ h'
              · simp at h'
          · next hm => simp at h'

/-- A failing `entriesLoop` run fails with a field-identified wrapped
error, never with a bare unknown-field error. -/
theorem entriesLoop_err_shape (sv : Ty → V → V → V × Option Err)
    (fields : List Fi) (fm : List (String × Nat)) :
    ∀ (m : List (String × V)) (vals : List V) (unk : List String)
      (vals2 : List V) (unk2 : List String) (e : Err),
      entriesLoop sv fields fm m vals unk = (vals2, unk2, some e) →
      ∃ name inner, e = .fieldErr name inner
  | [], _, _, _, _, _, hx => by simp [entriesLoop] at hx
  | (key, value) :: rest, vals, unk, vals2, unk2, e, hx => by
      unfold entriesLoop at hx
      cases hres : resolveKey fm key with
      | none =>
          rw [hres] at hx
          exact entriesLoop_err_shape sv fields fm rest vals (unk ++ [key])
            vals2 unk2 e hx
      | some i =>
          rw [hres] at hx
          dsimp only at hx
          rcases h1 : sv (fields.getD i ("", "", false, .tBool)).2.2.2
              (vals.getD i .vNull) value with ⟨r, err⟩
          rw [h1] at hx
          cases err with
          | some e2 =>
              refine ⟨(fields.getD i ("", "", false, .tBool)).1, e2, ?_⟩
              injection hx with ha rest
              injection rest with hb hc
              exact (Option.some.inj hc).symm
          | none =>
              exact entriesLoop_err_shape sv fields fm rest (vals.set i r)
                unk vals2 unk2 e hx

/-- A successful `entriesLoop` run accumulates exactly the unresolved
keys, in document order. -/
theorem entriesLoop_unknowns (sv : Ty → V → V → V × Option Err)
    (fields : List Fi) (fm : List (String × Nat)) :
    ∀ (m : List (String × V)) (vals : List V) (unk : List String)
      (vals2 : List V) (unk2 : List String),
      entriesLoop sv fields fm m vals unk = (vals2, unk2, none) →
      unk2 = unk ++
        (m.filter (fun kv => (resolveKey fm kv.1).isNone)).map Prod.fst
  | [], _, unk, _, unk2, hx => by
      simp [entriesLoop] at hx
      simpa using hx.2.symm
  | (key, value) :: rest, vals, unk, vals2, unk2, hx => by
      unfold entriesLoop at hx
      cases hres : resolveKey fm key with
      | none =>
          rw [hres] at hx
          have := entriesLoop_unknowns sv fields fm rest vals (unk ++ [key])
            vals2 unk2 hx
          simp [List.filter, hres, this]
      | some i =>
          rw [hres] at hx
          dsimp only at hx
          rcases h1 : sv (fields.getD i ("", "", false, .tBool)).2.2.2
              (vals.getD i .vNull) value with ⟨r, err⟩
          rw [h1] at hx
          cases err with
          | some e2 => simp at hx
          | none =>
              have := entriesLoop_unknowns sv fields fm rest (vals.set i r)
                unk vals2 unk2 hx
              simp [List.filter, hres, this]
/-- C3: if a document contains a key that resolves to no destination
field, and the run with `IgnoreUnknownKeys = false` hits no conversion
failure (its only possible error is an unknown-field error), then that
run fails naming the first unresolved key, the run with the flag on
succeeds, and both runs populate the destination identically. -/
theorem c3_unknown_key_behavior (fuel : Nat) (d : MapDecoder)
    (m : List (String × V)) (fields : List Fi) (cur : V)
    (h1 : ∃ kv ∈ m, resolveKey (buildFieldMap fields) kv.1 = none)
    (h2 : ∀ e,
      (decodeMapRV fuel (withIgnore d false) m (.tStruct fields) cur).2 =
        some e → ∃ k, e = .unknownField k) :
    ∃ k, (∃ v2, (k, v2) ∈ m) ∧ resolveKey (buildFieldMap fields) k = none ∧
      (decodeMapRV fuel (withIgnore d false) m (.tStruct fields) cur).2 =
        some (.unknownField k) ∧
      decodeMapRV fuel (withIgnore d true) m (.tStruct fields) cur =
        ((decodeMapRV fuel (withIgnore d false) m (.tStruct fields) cur).1,
          none) := by
  cases fuel with
  | zero =>
      rcases h2 .outOfFuel rfl with ⟨k, hk⟩
      simp at hk
  | succ n =>
      rcases hrun : entriesLoop
          (fun t c v => setValue n (withIgnore d false) t c v) fields
          (buildFieldMap fields) m
          (structVals (if (withIgnore d false).zeroFields = true then
            zeroOf (.tStruct fields) else cur)) [] with ⟨vals1, unk1, err1⟩
      have hfeq : decodeMapRV (n + 1) (withIgnore d false) m
          (.tStruct fields) cur =
          (match (vals1, unk1, err1) with
           | (vals1, _, some err) => (V.vStruct fields vals1, some err)
           | (vals1, unk, none) =>
               if !(withIgnore d false).ignoreUnknownKeys && !unk.isEmpty then
                 (V.vStruct fields vals1,
                   some (.unknownField (unk.headD "")))
               else (V.vStruct fields vals1, none)) := by
        rw [← hrun]
        rfl
      cases err1 with
      | some e =>
          exfalso
          rcases h2 e (by rw [hfeq]) with ⟨k, hk⟩
          rcases entriesLoop_err_shape _ _ _ _ _ _ _ _ _ hrun with
            ⟨name, inner, hshape⟩
          rw [hshape] at hk
          simp at hk
      | none =>
          have hunk := entriesLoop_unknowns _ _ _ _ _ _ _ _ hrun
          simp only [List.nil_append] at hunk
          rcases h1 with ⟨⟨k0, v0⟩, hmem, hres0⟩
          have hkin : k0 ∈ (List.filter
              (fun kv => (resolveKey (buildFieldMap fields) kv.1).isNone)
              m).map Prod.fst := by
            refine List.mem_map.mpr ⟨(k0, v0), ?_, rfl⟩
            refine List.mem_filter.mpr ⟨hmem, ?_⟩
            simp [hres0]
          have hne : unk1 ≠ [] := by
            rw [hunk]
            exact List.ne_nil_of_mem hkin
          obtain ⟨u, us, huk⟩ : ∃ u us, unk1 = u :: us := by
            cases hu : unk1 with
            | nil => exact absurd hu hne
            | cons a as => exact ⟨a, as, rfl⟩
          have humem : u ∈ (List.filter
              (fun kv => (resolveKey (buildFieldMap fields) kv.1).isNone)
              m).map Prod.fst := by
            rw [← hunk, huk]
            exact List.mem_cons_self _ _
          rcases List.mem_map.mp humem with ⟨⟨ku, vu⟩, hfil, hfst⟩
          rcases List.mem_filter.mp hfil with ⟨humm, hpred⟩
          have hures : resolveKey (buildFieldMap fields) u = none := by
            rw [← hfst]
            exact Option.isNone_iff_eq_none.mp hpred
          have hrunT : entriesLoop
              (fun t c v => setValue n (withIgnore d true) t c v) fields
              (buildFieldMap fields) m
              (structVals (if (withIgnore d true).zeroFields = true then
                zeroOf (.tStruct fields) else cur)) [] =
              (vals1, unk1, none) :=
            entriesLoop_congr_ok _ _ _ _
              (fun t c x r hx => (ignore_mono n).1 (withIgnore d false)
                t c x r hx) _ _ _ _ _ hrun
          have hteq : decodeMapRV (n + 1) (withIgnore d true) m
              (.tStruct fields) cur =
              (match ((vals1 : List V), (unk1 : List String),
                  (none : Option Err)) with
               | (vals1, _, some err) => (V.vStruct fields vals1, some err)
               | (vals1, unk, none) =>
                   if !(withIgnore d true).ignoreUnknownKeys &&
                       !unk.isEmpty then
                     (V.vStruct fields vals1,
                       some (.unknownField (unk.headD "")))
                   else (V.vStruct fields vals1, none)) := by
            rw [← hrunT]
            rfl
          refine ⟨u, ⟨vu, by rw [← hfst]; exact humm⟩, hures, ?_, ?_⟩
          · rw [hfeq, huk]
            rfl
          · rw [hteq, hfeq, huk]
            rfl

/-- Witness for C3: decoding a two-key document with one unknown key
into a one-field record fails with the unknown-field error when the flag
is off, succeeds when it is on, and populates the field identically. -/
theorem c3_unknown_key_behavior_witness :
    decodeMapRV 3 (withIgnore NewDecoder true)
      [("id", .vFloat64 1), ("extra", .vFloat64 2)]
      (.tStruct [("ID", "id", true, .tInt .i)])
      (zeroOf (.tStruct [("ID", "id", true, .tInt .i)])) =
      ((decodeMapRV 3 (withIgnore NewDecoder false)
          [("id", .vFloat64 1), ("extra", .vFloat64 2)]
          (.tStruct [("ID", "id", true, .tInt .i)])
          (zeroOf (.tStruct [("ID", "id", true, .tInt .i)]))).1, none) ∧
    (decodeMapRV 3 (withIgnore NewDecoder false)
        [("id", .vFloat64 1), ("extra", .vFloat64 2)]
        (.tStruct [("ID", "id", true, .tInt .i)])
        (zeroOf (.tStruct [("ID", "id", true, .tInt .i)]))).2 =
      some (.unknownField "extra") := by
  obtain ⟨k, hmem, hres, hferr, htrue⟩ := c3_unknown_key_behavior 3
    NewDecoder [("id", .vFloat64 1), ("extra", .vFloat64 2)]
    [("ID", "id", true, .tInt .i)]
    (zeroOf (.tStruct [("ID", "id", true, .tInt .i)]))
    ⟨("extra", .vFloat64 2), by simp, rfl⟩
    (fun e he => ⟨"extra", by
      rw [show (decodeMapRV 3 (withIgnore NewDecoder false)
          [("id", .vFloat64 1), ("extra", .vFloat64 2)]
          (.tStruct [("ID", "id", true, .tInt .i)])
          (zeroOf (.tStruct [("ID", "id", true, .tInt .i)]))).2 =
        some (.unknownField "extra") from rfl] at he
      exact (Option.some.inj he).symm⟩)
  exact ⟨htrue, rfl⟩

/-! ## C4 — round trip through ToMap and DecodeMap -/

/-- Whether `ToMap` skips a field with value `v`: unexported, tag-first
segment `"-"`, or zero-valued with an `omitempty` tag — mirroring the
`continue` conditions of the projection loop. -/
def skipF (f : Fi) (v : V) : Bool :=
  if f.2.2.1 = false then true
  else if f.2.1 ≠ "" ∧ primOf f.2.1 = "-" then true
  else isZeroV v && goContains f.2.1 "omitempty"

/-- The entries `ToMap` projects from a field/value list, in order. -/
def projEntries : List Fi → List V → List (String × V)
  | [], _ => []
  | _ :: _, [] => []
  | f :: fs, v :: vs =>
      if skipF f v then projEntries fs vs
      else (toMapName f, v) :: projEntries fs vs

/-- The field values produced by decoding the projected entries of the
suffix starting at index `k` into the accumulator. -/
def mergeProj : List Fi → List V → Nat → List V → List V
  | [], _, _, acc => acc
  | _ :: _, [], _, acc => acc
  | f :: fs, v :: vs, k, acc =>
      if skipF f v then mergeProj fs vs (k + 1) acc
      else mergeProj fs vs (k + 1) (acc.set k v)

/-- Inserting a fresh key is an append. -/
theorem upsert_fresh {α : Type} :
    ∀ (acc : List (String × α)) (k : String) (v : α),
      k ∉ acc.map Prod.fst → upsert acc k v = acc ++ [(k, v)]
  | [], _, _, _ => rfl
  | (k0, v0) :: rest, k, v, h => by
      unfold upsert
      have hk : k0 ≠ k := by
        intro he
        exact h (by simp [he])
      rw [if_neg hk]
      rw [upsert_fresh rest k v (by intro hm; exact h (by simp [hm]))]
      rfl

/-- Every projected entry of a suffix names a surviving global field. -/
theorem projEntries_mem (fields : List Fi) (vals : List V) :
    ∀ (fs : List Fi) (vs : List V) (k : Nat),
      (∀ j, fs[j]? = fields[k + j]?) →
      (∀ j, vs[j]? = vals[k + j]?) →
      ∀ p ∈ projEntries fs vs, ∃ j, k ≤ j ∧ j < fields.length ∧
        p.1 = toMapName (fields.getD j dFi)
  | [], _, _, _, _, p, hp => by simp [projEntries] at hp
  | _ :: _, [], _, _, _, p, hp => by simp [projEntries] at hp
  | f :: fs, v :: vs, k, hf, hv, p, hp => by
      have hf0 : fields[k]? = some f := by
        have := hf 0
        simpa using this.symm
      have hklen : k < fields.length := by
        by_contra hk
        rw [List.getElem?_eq_none (by omega)] at hf0
        simp at hf0
      have hfk : fields.getD k dFi = f := by
        rw [List.getD_eq_getElem?_getD, hf0]
        rfl
      have hf2 : ∀ j, fs[j]? = fields[k + 1 + j]? := by
        intro j
        have := hf (j + 1)
        simpa [Nat.add_assoc, Nat.add_comm 1 j] using this
      have hv2 : ∀ j, vs[j]? = vals[k + 1 + j]? := by
        intro j
        have := hv (j + 1)
        simpa [Nat.add_assoc, Nat.add_comm 1 j] using this
      unfold projEntries at hp
      by_cases hs : skipF f v = true
      · rw [if_pos hs] at hp
        rcases projEntries_mem fields vals fs vs (k + 1) hf2 hv2 p hp with
          ⟨j, hj1, hj2, hj3⟩
        exact ⟨j, by omega, hj2, hj3⟩
      · rw [if_neg hs] at hp
        rcases List.mem_cons.mp hp with hp | hp
        · exact ⟨k, Nat.le_refl k, hklen, by rw [hp, hfk]⟩
        · rcases projEntries_mem fields vals fs vs (k + 1) hf2 hv2 p hp with
            ⟨j, hj1, hj2, hj3⟩
          exact ⟨j, by omega, hj2, hj3⟩

/-- With injective projected names, the projected entries of a suffix
have pairwise-distinct keys. -/
theorem projEntries_pairwise (fields : List Fi) (vals : List V)
    (hinj : ∀ j1 j2, j1 < fields.length → j2 < fields.length →
      toMapName (fields.getD j1 dFi) = toMapName (fields.getD j2 dFi) →
      j1 = j2) :
    ∀ (fs : List Fi) (vs : List V) (k : Nat),
      (∀ j, fs[j]? = fields[k + j]?) →
      (∀ j, vs[j]? = vals[k + j]?) →
      List.Pairwise (fun a b : String × V => a.1 ≠ b.1)
        (projEntries fs vs)
  | [], _, _, _, _ => by simp [projEntries]
  | _ :: _, [], _, _, _ => by simp [projEntries]
  | f :: fs, v :: vs, k, hf, hv => by
      have hf0 : fields[k]? = some f := by
        have := hf 0
        simpa using this.symm
      have hklen : k < fields.length := by
        by_contra hk
        rw [List.getElem?_eq_none (by omega)] at hf0
        simp at hf0
      have hfk : fields.getD k dFi = f := by
        rw [List.getD_eq_getElem?_getD, hf0]
        rfl
      have hf2 : ∀ j, fs[j]? = fields[k + 1 + j]? := by
        intro j
        have := hf (j + 1)
        simpa [Nat.add_assoc, Nat.add_comm 1 j] using this
      have hv2 : ∀ j, vs[j]? = vals[k + 1 + j]? := by
        intro j
        have := hv (j + 1)
        simpa [Nat.add_assoc, Nat.add_comm 1 j] using this
      unfold projEntries
      by_cases hs : skipF f v = true
      · rw [if_pos hs]
        exact projEntries_pairwise fields vals hinj fs vs (k + 1) hf2 hv2
      · rw [if_neg hs]
        refine List.Pairwise.cons ?_
          (projEntries_pairwise fields vals hinj fs vs (k + 1) hf2 hv2)
        intro q hq hne
        rcases projEntries_mem fields vals fs vs (k + 1) hf2 hv2 q hq with
          ⟨j, hj1, hj2, hj3⟩
        have hkj : k = j := by
          refine hinj k j hklen hj2 ?_
          rw [hfk]
          rw [show toMapName f = q.1 from hne]
          exact hj3
        omega

/-- With pairwise-distinct, accumulator-fresh keys, the `ToMap` loop
appends exactly the projected entries. -/
theorem toMapLoop_eq_append :
    ∀ (fs : List Fi) (vs : List V) (acc : List (String × V)),
      List.Pairwise (fun a b : String × V => a.1 ≠ b.1)
        (projEntries fs vs) →
      (∀ p ∈ projEntries fs vs, p.1 ∉ acc.map Prod.fst) →
      toMapLoop fs vs acc = acc ++ projEntries fs vs
  | [], vs, acc, _, _ => by
      cases vs <;> simp [toMapLoop, projEntries]
  | _ :: _, [], acc, _, _ => by simp [toMapLoop, projEntries]
  | f :: fs, v :: vs, acc, hpw, hfresh => by
      unfold toMapLoop projEntries
      unfold projEntries at hpw hfresh
      by_cases h1 : f.2.2.1 = false
      · have hs : skipF f v = true := by simp [skipF, h1]
        rw [if_pos hs] at hpw hfresh
        rw [if_pos h1, if_pos hs]
        exact toMapLoop_eq_append fs vs acc hpw hfresh
      · rw [if_neg h1]
        by_cases h2 : f.2.1 ≠ "" ∧ primOf f.2.1 = "-"
        · have hs : skipF f v = true := by simp [skipF, h1, h2]
          rw [if_pos hs] at hpw hfresh
          rw [if_pos h2, if_pos hs]
          exact toMapLoop_eq_append fs vs acc hpw hfresh
        · rw [if_neg h2]
          by_cases h3 : (isZeroV v && goContains f.2.1 "omitempty") = true
          · have hs : skipF f v = true := by simp [skipF, h1, h2, h3]
            rw [if_pos hs] at hpw hfresh
            rw [if_pos h3, if_pos hs]
            exact toMapLoop_eq_append fs vs acc hpw hfresh
          · have hs : ¬(skipF f v = true) := by
              simp only [skipF, if_neg h1, if_neg h2]
              exact h3
            rw [if_neg hs] at hpw hfresh
            rw [if_neg h3, if_neg hs]
            rcases List.pairwise_cons.mp hpw with ⟨hhead, htail⟩
            rw [upsert_fresh acc (toMapName f) v
              (hfresh (toMapName f, v) (List.mem_cons_self _ _))]
            rw [toMapLoop_eq_append fs vs (acc ++ [(toMapName f, v)])
              htail ?_]
            · simp
            · intro p hp
              simp only [List.map_append, List.mem_append]
              rintro (hacc | hsing)
              · exact hfresh p (List.mem_cons_of_mem _ hp) hacc
              · simp at hsing
                exact hhead p hp hsing.symm

/-- Read a `getD` through a successful indexed lookup. -/
theorem getD_of_getElem? (l : List V) (n : Nat) (x : V)
    (h : l[n]? = some x) : l.getD n .vNull = x := by
  rw [List.getD_eq_getElem?_getD, h]
  rfl

/-- Two value lists of equal length with equal reads are equal. -/
theorem getD_ext_eq (acc vals : List V) (hlen : acc.length = vals.length)
    (h : ∀ j, j < vals.length → acc.getD j .vNull = vals.getD j .vNull) :
    acc = vals := by
  refine List.ext_getElem? fun n => ?_
  by_cases hn : n < vals.length
  · have hna : n < acc.length := by omega
    have e1 : acc.getD n .vNull = acc[n] := by
      rw [List.getD_eq_getElem?_getD, List.getElem?_eq_getElem hna]
      rfl
    have e2 : vals.getD n .vNull = vals[n] := by
      rw [List.getD_eq_getElem?_getD, List.getElem?_eq_getElem hn]
      rfl
    rw [List.getElem?_eq_getElem hna, List.getElem?_eq_getElem hn]
    exact congrArg some (by rw [← e1, ← e2]; exact h n hn)
  · rw [List.getElem?_eq_none (by omega), List.getElem?_eq_none (by omega)]

/-- `setValue` on a source whose dynamic type equals the destination
type assigns it directly (the Step-1 assignability check), for any
positive budget. -/
theorem setValue_assignable (fuel : Nat) (d : MapDecoder) (t : Ty)
    (c x : V) (h : tyOf x = t) : setValue (fuel + 1) d t c x = (x, none) := by
  subst h
  cases x <;> simp [setValue, setValueStep, Ty.beq_refl, tyOf, zeroOf]

theorem zeroFieldVals_length :
    ∀ fs : List Fi, (zeroFieldVals fs).length = fs.length
  | [] => rfl
  | _ :: fs => by simp [zeroFieldVals, zeroFieldVals_length fs]

theorem zeroFieldVals_getD :
    ∀ (fs : List Fi) (j : Nat), j < fs.length →
      (zeroFieldVals fs).getD j .vNull = zeroOf ((fs.getD j dFi).2.2.2)
  | [], j, h => by simp at h
  | f :: fs, 0, _ => rfl
  | f :: fs, j + 1, h => by
      simp only [zeroFieldVals, List.getD_cons_succ]
      exact zeroFieldVals_getD fs j (by simpa using h)

/-- Decoding the projected entries of the suffix starting at `k` with a
type-respecting converter performs exactly the index-wise overwrites of
`mergeProj`, and leaves no unknown keys. -/
theorem entriesLoop_projEntries (fields : List Fi) (vals : List V)
    (sv : Ty → V → V → V × Option Err)
    (hsv : ∀ t c x, tyOf x = t → sv t c x = (x, none))
    (hty : ∀ j, j < fields.length →
      tyOf (vals.getD j .vNull) = (fields.getD j dFi).2.2.2)
    (hres : ∀ j, j < fields.length →
      resolveKey (buildFieldMap fields) (toMapName (fields.getD j dFi)) =
        some j) :
    ∀ (fs : List Fi) (vs : List V) (k : Nat) (acc : List V),
      (∀ j, fs[j]? = fields[k + j]?) →
      (∀ j, vs[j]? = vals[k + j]?) →
      entriesLoop sv fields (buildFieldMap fields) (projEntries fs vs)
        acc [] = (mergeProj fs vs k acc, [], none)
  | [], vs, k, acc, _, _ => by
      cases vs <;> simp [projEntries, entriesLoop, mergeProj]
  | _ :: _, [], k, acc, _, _ => by
      simp [projEntries, entriesLoop, mergeProj]
  | f :: fs, v :: vs, k, acc, hf, hv => by
      have hf0 : fields[k]? = some f := by
        have := hf 0
        simpa using this.symm
      have hklen : k < fields.length := by
        by_contra hk
        rw [List.getElem?_eq_none (by omega)] at hf0
        simp at hf0
      have hfk : fields.getD k dFi = f := by
        rw [List.getD_eq_getElem?_getD, hf0]
        rfl
      have hv0 : vals[k]? = some v := by
        have := hv 0
        simpa using this.symm
      have hvk : vals.getD k .vNull = v := getD_of_getElem? _ _ _ hv0
      have hf2 : ∀ j, fs[j]? = fields[k + 1 + j]? := by
        intro j
        have := hf (j + 1)
        simpa [Nat.add_assoc, Nat.add_comm 1 j] using this
      have hv2 : ∀ j, vs[j]? = vals[k + 1 + j]? := by
        intro j
        have := hv (j + 1)
        simpa [Nat.add_assoc, Nat.add_comm 1 j] using this
      unfold projEntries mergeProj
      by_cases hs : skipF f v = true
      · rw [if_pos hs, if_pos hs]
        exact entriesLoop_projEntries fields vals sv hsv hty hres fs vs
          (k + 1) acc hf2 hv2
      · rw [if_neg hs, if_neg hs]
        unfold entriesLoop
        have hresk : resolveKey (buildFieldMap fields) (toMapName f) =
            some k := by
          rw [← hfk]
          exact hres k hklen
        rw [hresk]
        dsimp only
        have hconv : sv (fields.getD k ("", "", false, .tBool)).2.2.2
            (acc.getD k .vNull) v = (v, none) := by
          apply hsv
          rw [← hvk]
          exact hty k hklen
        rw [hconv]
        exact entriesLoop_projEntries fields vals sv hsv hty hres fs vs
          (k + 1) (acc.set k v) hf2 hv2

/-- If the accumulator already agrees with `vals` below `k` and on every
skipped position, the merge of the suffix at `k` restores `vals`. -/
theorem mergeProj_eq_vals (fields : List Fi) (vals : List V)
    (hlen : vals.length = fields.length) :
    ∀ (fs : List Fi) (vs : List V) (k : Nat) (acc : List V),
      (∀ j, fs[j]? = fields[k + j]?) →
      (∀ j, vs[j]? = vals[k + j]?) →
      acc.length = vals.length →
      (∀ j, j < vals.length →
        (j < k → acc.getD j .vNull = vals.getD j .vNull) ∧
        (k ≤ j → skipF (fields.getD j dFi) (vals.getD j .vNull) = true →
          acc.getD j .vNull = vals.getD j .vNull)) →
      mergeProj fs vs k acc = vals
  | [], vs, k, acc, hf, _, hacc, hfill => by
      have hk : fields.length ≤ k := by
        by_contra hlt
        have h0 := hf 0
        rw [List.getElem?_eq_getElem (by omega : k + 0 < fields.length)]
          at h0
        simp at h0
      have : mergeProj [] vs k acc = acc := by cases vs <;> rfl
      rw [this]
      exact getD_ext_eq acc vals hacc
        (fun j hj => (hfill j hj).1 (by omega))
  | _ :: _, [], k, acc, _, hv, hacc, hfill => by
      have hk : vals.length ≤ k := by
        by_contra hlt
        have h0 := hv 0
        rw [List.getElem?_eq_getElem (by omega : k + 0 < vals.length)] at h0
        simp at h0
      exact getD_ext_eq acc vals hacc
        (fun j hj => (hfill j hj).1 (by omega))
  | f :: fs, v :: vs, k, acc, hf, hv, hacc, hfill => by
      have hf0 : fields[k]? = some f := by
        have := hf 0
        simpa using this.symm
      have hklen : k < fields.length := by
        by_contra hk
        rw [List.getElem?_eq_none (by omega)] at hf0
        simp at hf0
      have hfk : fields.getD k dFi = f := by
        rw [List.getD_eq_getElem?_getD, hf0]
        rfl
      have hv0 : vals[k]? = some v := by
        have := hv 0
        simpa using this.symm
      have hvk : vals.getD k .vNull = v := getD_of_getElem? _ _ _ hv0
      have hkvlen : k < vals.length := by
        by_contra hk
        rw [List.getElem?_eq_none (by omega)] at hv0
        simp at hv0
      have hf2 : ∀ j, fs[j]? = fields[k + 1 + j]? := by
        intro j
        have := hf (j + 1)
        simpa [Nat.add_assoc, Nat.add_comm 1 j] using this
      have hv2 : ∀ j, vs[j]? = vals[k + 1 + j]? := by
        intro j
        have := hv (j + 1)
        simpa [Nat.add_assoc, Nat.add_comm 1 j] using this
      unfold mergeProj
      by_cases hs : skipF f v = true
      · rw [if_pos hs]
        refine mergeProj_eq_vals fields vals hlen fs vs (k + 1) acc hf2 hv2
          hacc (fun j hj => ⟨?_, ?_⟩)
        · intro hjk
          by_cases hje : j = k
          · subst hje
            refine (hfill j hj).2 (Nat.le_refl j) ?_
            rw [hfk, hvk]
            exact hs
          · exact (hfill j hj).1 (by omega)
        · intro hjk hskip
          exact (hfill j hj).2 (by omega) hskip
      · rw [if_neg hs]
        refine mergeProj_eq_vals fields vals hlen fs vs (k + 1) (acc.set k v)
          hf2 hv2 (by simp [hacc]) (fun j hj => ⟨?_, ?_⟩)
        · intro hjk
          by_cases hje : j = k
          · subst hje
            rw [hvk]
            refine getD_of_getElem? _ _ _ ?_
            exact List.getElem?_set_self (by omega)
          · have hset : (acc.set k v)[j]? = acc[j]? :=
              List.getElem?_set_ne (by omega)
            rw [List.getD_eq_getElem?_getD, hset,
              ← List.getD_eq_getElem?_getD]
            exact (hfill j hj).1 (by omega)
        · intro hjk hskip
          have hset : (acc.set k v)[j]? = acc[j]? :=
            List.getElem?_set_ne (by omega)
          rw [List.getD_eq_getElem?_getD, hset,
            ← List.getD_eq_getElem?_getD]
          exact (hfill j hj).2 (by omega) hskip


/-- C4 (amended): the round trip holds for a record whose fields all
survive the projection with their values intact and resolve back to
themselves: every field value has exactly its declared type, every
field's projected key resolves (through the field map) to that same
field, and any field the projection skips holds its type's zero value.
Then decoding `ToMap r` into a freshly zeroed record of the same type
reproduces `r` exactly, for every sufficient recursion budget. -/
theorem c4_roundtrip (fuel : Nat) (fields : List Fi) (vals : List V)
    (hlen : vals.length = fields.length)
    (hty : ∀ j, j < fields.length →
      tyOf (vals.getD j .vNull) = (fields.getD j dFi).2.2.2)
    (hres : ∀ j, j < fields.length →
      resolveKey (buildFieldMap fields) (toMapName (fields.getD j dFi)) =
        some j)
    (hskip : ∀ j, j < fields.length →
      skipF (fields.getD j dFi) (vals.getD j .vNull) = true →
      vals.getD j .vNull = zeroOf (fields.getD j dFi).2.2.2) :
    ∃ m, ToMap (.vStruct fields vals) = .ok m ∧
      DecodeMap (fuel + 2) m
          (.ptr (.tStruct fields) (zeroOf (.tStruct fields))) =
        (.ptr (.tStruct fields) (.vStruct fields vals), none) := by
  have hinj : ∀ j1 j2, j1 < fields.length → j2 < fields.length →
      toMapName (fields.getD j1 dFi) = toMapName (fields.getD j2 dFi) →
      j1 = j2 := by
    intro j1 j2 h1 h2 he
    have h := hres j1 h1
    rw [he, hres j2 h2] at h
    exact (Option.some.inj h).symm
  have hfid : ∀ j, fields[j]? = fields[0 + j]? := by intro j; simp
  have hvid : ∀ j, vals[j]? = vals[0 + j]? := by intro j; simp
  refine ⟨projEntries fields vals, ?_, ?_⟩
  · show Except.ok (toMapLoop fields vals []) =
      Except.ok (projEntries fields vals)
    rw [toMapLoop_eq_append fields vals []
      (projEntries_pairwise fields vals hinj fields vals 0 hfid hvid)
      (by intro p hp; simp)]
    rw [List.nil_append]
  · have hloop : entriesLoop
        (fun t c v => setValue (fuel + 1) NewDecoder t c v) fields
        (buildFieldMap fields) (projEntries fields vals)
        (zeroFieldVals fields) [] =
        (mergeProj fields vals 0 (zeroFieldVals fields), [], none) :=
      entriesLoop_projEntries fields vals _
        (fun t c x h => setValue_assignable fuel NewDecoder t c x h)
        hty hres fields vals 0 (zeroFieldVals fields) hfid hvid
    have hmerge : mergeProj fields vals 0 (zeroFieldVals fields) = vals := by
      refine mergeProj_eq_vals fields vals hlen fields vals 0
        (zeroFieldVals fields) hfid hvid
        (by rw [zeroFieldVals_length, hlen]) ?_
      intro j hj
      refine ⟨fun h => absurd h (Nat.not_lt_zero j), fun _ hsk => ?_⟩
      have hjf : j < fields.length := by omega
      rw [zeroFieldVals_getD fields j hjf, hskip j hjf hsk]
    have h1 : decodeMapRV (fuel + 2) NewDecoder (projEntries fields vals)
        (.tStruct fields) (zeroOf (.tStruct fields)) =
        (match entriesLoop
            (fun t c v => setValue (fuel + 1) NewDecoder t c v) fields
            (buildFieldMap fields) (projEntries fields vals)
            (zeroFieldVals fields) [] with
         | (vals1, _, some err) => (V.vStruct fields vals1, some err)
         | (vals1, unk, none) =>
             if !NewDecoder.ignoreUnknownKeys && !unk.isEmpty then
               (V.vStruct fields vals1,
                 some (.unknownField (unk.headD "")))
             else (V.vStruct fields vals1, none)) := rfl
    show (Dest.ptr (.tStruct fields)
        (decodeMapRV (fuel + 2) NewDecoder (projEntries fields vals)
          (.tStruct fields) (zeroOf (.tStruct fields))).1,
        (decodeMapRV (fuel + 2) NewDecoder (projEntries fields vals)
          (.tStruct fields) (zeroOf (.tStruct fields))).2) = _
    rw [h1, hloop]
    dsimp only
    rw [hmerge]
    rfl

/-- C4 counterexample: a record with a `"-"`-tagged string field holding
`"x"` projects to the empty document, and decoding that back into a
zeroed record leaves the field at `""` — the round trip loses the
field's value. -/
theorem c4_counterexample :
    ToMap (.vStruct [("Secret", "-", true, .tString)] [.vString "x"]) =
      .ok ([] : List (String × V)) ∧
    DecodeMap 2 []
        (.ptr (.tStruct [("Secret", "-", true, .tString)])
          (zeroOf (.tStruct [("Secret", "-", true, .tString)]))) =
      (.ptr (.tStruct [("Secret", "-", true, .tString)])
        (.vStruct [("Secret", "-", true, .tString)] [.vString ""]), none) ∧
    V.vString "" ≠ V.vString "x" :=
  ⟨rfl, rfl, by simp⟩

/-- Witness for C4 (amended): a two-field record (a tagged int field and
an untagged string field) with non-zero values round-trips exactly. -/
theorem c4_roundtrip_witness :
    ∃ m, ToMap (.vStruct
        [("ID", "id", true, .tInt .i), ("Name", "", true, .tString)]
        [.vInt .i 5, .vString "a"]) = .ok m ∧
      DecodeMap 2 m
          (.ptr (.tStruct
              [("ID", "id", true, .tInt .i), ("Name", "", true, .tString)])
            (zeroOf (.tStruct
              [("ID", "id", true, .tInt .i),
               ("Name", "", true, .tString)]))) =
        (.ptr (.tStruct
            [("ID", "id", true, .tInt .i), ("Name", "", true, .tString)])
          (.vStruct
            [("ID", "id", true, .tInt .i), ("Name", "", true, .tString)]
            [.vInt .i 5, .vString "a"]), none) :=
  c4_roundtrip 0
    [("ID", "id", true, .tInt .i), ("Name", "", true, .tString)]
    [.vInt .i 5, .vString "a"]
    rfl
    (fun j hj => match j with
      | 0 => rfl
      | 1 => rfl
      | _ + 2 => absurd hj (by simp))
    (fun j hj => match j with
      | 0 => rfl
      | 1 => rfl
      | _ + 2 => absurd hj (by simp))
    (fun j hj hsk => match j with
      | 0 => absurd hsk (by decide)
      | 1 => absurd hsk (by decide)
      | _ + 2 => absurd hj (by simp))

end Mapstructure
